import Mathlib

/-!
Verification development for the MED clinic scheduling core.

Shallow embedding conventions:
* times of day are minutes after midnight (`Nat`, 0 ≤ t < 1440);
* dates are day ordinals (`Nat`), with day 0 a Monday, so that
  `isoweekday d = d % 7 + 1` matches Python's `date.isoweekday()`;
* a "now" instant is a pair `(date, minutes)`;
* Django model rows are Lean structures; primary keys are explicit `id`
  fields, and fresh keys are `max id + 1`;
* fallible operations (`full_clean`, DB constraint checks) return `Except`.
-/

namespace MED

/-- `TimeSlot.SLOT_TYPES` / `TemplateTimeSlot.SLOT_TYPES` (doctor/models.py). -/
inductive SlotType
  | consultation
  | treatment
deriving DecidableEq, Repr

/-- `TimeSlot.SLOT_DURATIONS` (doctor/models.py): fixed duration per slot type. -/
def slotDurations : SlotType → Nat
  | .consultation => 15
  | .treatment => 40

/-- `ScheduleTemplate` (doctor/models.py).  The doctor reference is optional
because `create_time_slots` explicitly guards on `self.doctor_id` being unset. -/
structure ScheduleTemplate where
  id : Nat
  doctor : Option Nat
  day_of_week : Nat
  start_time : Nat
  end_time : Nat
  break_start : Option Nat := none
  break_end : Option Nat := none
  is_active : Bool := true
  last_slot_generation : Option Nat := none
  generation_period_days : Nat := 31
deriving DecidableEq, Repr

/-- `TemplateTimeSlot` (doctor/models.py): one typed sub-slot definition of a
template (the `template` FK is implicit: definitions are passed as the list
`template.template_slots.all()`). -/
structure TemplateTimeSlot where
  start_time : Nat
  duration : Nat := 15
  slot_type : SlotType
deriving DecidableEq, Repr

/-- `TimeSlot` (doctor/models.py).  The `template` FK is embedded by value
(slots never observe later template edits in the verified operations). -/
structure TimeSlot where
  id : Nat
  doctor : Nat
  template : Option ScheduleTemplate := none
  date : Nat
  start_time : Nat
  duration : Nat := 15
  slot_type : SlotType
  is_available : Bool := true
  is_deleted : Bool := false
deriving DecidableEq, Repr

/-- `TimeSlot.get_end_time`: `datetime.combine(datetime.min, start_time) +
timedelta(minutes=duration)` truncated back to a time of day, so the value
wraps around midnight. -/
def TimeSlot.get_end_time (s : TimeSlot) : Nat :=
  (s.start_time + s.duration) % 1440

/-- The duration overwrite performed at the top of `TimeSlot.clean`:
`self.duration = self.SLOT_DURATIONS[self.slot_type]`. -/
def cleanAdjusted (s : TimeSlot) : TimeSlot :=
  { s with duration := slotDurations s.slot_type }

/-- The overlap test of `TimeSlot.clean`: some other available, non-deleted
slot of the same doctor and date has an interval intersecting the
candidate's.  The query uses the default manager, i.e. only sees non-deleted
rows, and excludes the candidate's own pk. -/
def overlapViolation (s : TimeSlot) (db : List TimeSlot) : Bool :=
  (db.filter fun o =>
    o.is_deleted = false && o.doctor == s.doctor && o.date == s.date &&
      decide (o.start_time < s.get_end_time) && o.is_available && o.id != s.id).any
    fun o => decide (o.get_end_time > s.start_time)

/-- The working-hours test of `TimeSlot.clean` against an attached template. -/
def hoursViolation (s : TimeSlot) (t : ScheduleTemplate) : Bool :=
  decide (s.start_time < t.start_time ∨ s.get_end_time > t.end_time)

/-- The break test of `TimeSlot.clean` against an attached template: rejected
when the start lies in [break_start, break_end) or the end lies in
(break_start, break_end]. -/
def breakViolation (s : TimeSlot) (t : ScheduleTemplate) : Bool :=
  match t.break_start, t.break_end with
  | some bs, some be =>
    decide ((bs ≤ s.start_time ∧ s.start_time < be) ∨
      (s.get_end_time > bs ∧ s.get_end_time ≤ be))
  | _, _ => false

/-- `TimeSlot.clean` (doctor/models.py lines 799-835).  The slot-type
membership test of the source is vacuous here because `SlotType` is a closed
enumeration; the duration is overwritten from the type exactly as in the
source, before the end time is computed. -/
def timeSlotClean (s0 : TimeSlot) (db : List TimeSlot) : Except String TimeSlot :=
  let s := cleanAdjusted s0
  if overlapViolation s db then .error "slot overlaps an existing slot"
  else
    match s.template with
    | none => .ok s
    | some t =>
      if hoursViolation s t then .error "slot outside template working hours"
      else if breakViolation s t then .error "slot intersects the template break"
      else .ok s

/-- The uniqueness gate on a `TimeSlot` write: Django's `validate_unique`
(checked by `full_clean` over the default, non-deleted manager) together with
the DB constraint `unique_doctor_timeslot` on (doctor, date, start_time),
which also sees soft-deleted rows.  Either failure aborts the save, so they
are merged into one all-rows check. -/
def validateUniqueOk (s : TimeSlot) (db : List TimeSlot) : Bool :=
  !(db.any fun o =>
    o.id != s.id && o.doctor == s.doctor && o.date == s.date &&
      o.start_time == s.start_time)

/-- In-place update of the row with the given pk. -/
def replaceSlot (i : Nat) (s' : TimeSlot) (db : List TimeSlot) : List TimeSlot :=
  db.map fun o => if o.id = i then s' else o

/-- `TimeSlot.save` for an already-persisted row: `full_clean` (clean +
uniqueness) and then an in-place row update. -/
def saveExistingTimeSlot (s : TimeSlot) (db : List TimeSlot) :
    Except String (List TimeSlot) :=
  match timeSlotClean s db with
  | .error e => .error e
  | .ok s' =>
    if validateUniqueOk s' db then .ok (replaceSlot s.id s' db)
    else .error "unique constraint violated"

/-- Fresh primary key for a new `TimeSlot` row. -/
def freshSlotId (db : List TimeSlot) : Nat :=
  db.foldr (fun s m => max s.id m) 0 + 1

/-- The fresh row handed to `TimeSlot.objects.create(...)` before `save`. -/
def newSlotRecord (doctor date start_time duration : Nat) (slot_type : SlotType)
    (template : Option ScheduleTemplate) (db : List TimeSlot) : TimeSlot :=
  { id := freshSlotId db, doctor := doctor, template := template, date := date,
    start_time := start_time, duration := duration, slot_type := slot_type,
    is_available := true, is_deleted := false }

/-- `TimeSlot.objects.create(...)`: builds the row, runs `full_clean` via
`save`, enforces the uniqueness constraint, and appends the row. -/
def createTimeSlot (doctor date start_time duration : Nat) (slot_type : SlotType)
    (template : Option ScheduleTemplate) (db : List TimeSlot) :
    Except String (List TimeSlot × TimeSlot) :=
  match timeSlotClean
      (newSlotRecord doctor date start_time duration slot_type template db) db with
  | .error e => .error e
  | .ok s' =>
    if validateUniqueOk s' db then .ok (db ++ [s'], s')
    else .error "unique constraint violated"

/-- Python `date.isoweekday()` under the day-0-is-Monday convention. -/
def isoweekday (d : Nat) : Nat := d % 7 + 1

/-- `ScheduleTemplate._is_break_time` (doctor/models.py lines 625-633): true
iff both break bounds are set and the *start* instant lies in
[break_start, break_end).  Note that it tests only the single instant it is
given, not an interval. -/
def is_break_time (tpl : ScheduleTemplate) (t : Nat) : Bool :=
  match tpl.break_start, tpl.break_end with
  | some bs, some be => decide (bs ≤ t ∧ t < be)
  | _, _ => false

/-- The lookup filter of `create_time_slots`:
`TimeSlot.objects.with_deleted().filter(doctor=..., date=..., start_time=...,
slot_type=...)`. -/
def matchesCand (doc d : Nat) (ts : TemplateTimeSlot) (s : TimeSlot) : Bool :=
  s.doctor == doc && s.date == d && s.start_time == ts.start_time &&
    s.slot_type == ts.slot_type

/-- The in-memory mutation of the restore branch:
`existing_slot.is_deleted = False; existing_slot.is_available = True`. -/
def restoreRecord (s : TimeSlot) : TimeSlot :=
  { s with is_deleted := false, is_available := true }

/-- One candidate of the generation loop body (doctor/models.py lines
584-618): skip when the start falls in the break, otherwise look the slot up
among all (incl. soft-deleted) rows; restore a soft-deleted match, leave a
live match untouched, create the row when absent.  Any exception from the
restore/create (validation or constraint failure) is caught and the candidate
skipped.  Returns (slots_created increment, new ledger). -/
def stepCandidate (tpl : ScheduleTemplate) (doc d : Nat) (ts : TemplateTimeSlot)
    (st : List TimeSlot) : Nat × List TimeSlot :=
  if is_break_time tpl ts.start_time then (0, st)
  else
    match (st.filter (matchesCand doc d ts)).head? with
    | some existing =>
      if existing.is_deleted then
        match saveExistingTimeSlot (restoreRecord existing) st with
        | .ok st' => (1, st')
        | .error _ => (0, st)
      else (0, st)
    | none =>
      match createTimeSlot doc d ts.start_time ts.duration ts.slot_type
          (some tpl) st with
      | .ok (st', _) => (1, st')
      | .error _ => (0, st)

/-- The inner `for template_slot in template_slots` loop for one date. -/
def processSlots (tpl : ScheduleTemplate) (doc d : Nat) :
    List TemplateTimeSlot → List TimeSlot → Nat × List TimeSlot
  | [], st => (0, st)
  | ts :: rest, st =>
    let r1 := stepCandidate tpl doc d ts st
    let r2 := processSlots tpl doc d rest r1.2
    (r1.1 + r2.1, r2.2)

/-- The outer `while current_date <= end_date` loop: only dates whose
isoweekday matches the template's day get slots. -/
def processDates (tpl : ScheduleTemplate) (doc : Nat) (tss : List TemplateTimeSlot) :
    List Nat → List TimeSlot → Nat × List TimeSlot
  | [], st => (0, st)
  | d :: ds, st =>
    let r1 := if isoweekday d = tpl.day_of_week then processSlots tpl doc d tss st
              else (0, st)
    let r2 := processDates tpl doc tss ds r1.2
    (r1.1 + r2.1, r2.2)

/-- The inclusive date range `start_date .. end_date` of the while loop. -/
def dateRange (a b : Nat) : List Nat := List.range' a (b + 1 - a)

/-- `ScheduleTemplate.create_time_slots` (doctor/models.py lines 557-623):
hard error when no doctor is attached; when the template has no slot
definitions, return 0 having created nothing; otherwise run the
reconciliation loop and return the created/restored count with the ledger. -/
def create_time_slots (tpl : ScheduleTemplate) (tss : List TemplateTimeSlot)
    (start_date : Nat) (end_date : Option Nat) (st : List TimeSlot) :
    Except String (Nat × List TimeSlot) :=
  match tpl.doctor with
  | none => .error "cannot create slots: no doctor"
  | some doc =>
    let endD := end_date.getD (start_date + 30)
    if tss = [] then .ok (0, st)
    else .ok (processDates tpl doc tss (dateRange start_date endD) st)

/-- Flattened candidate list (date paired with a definition), in loop order. -/
def candsOf (dow : Nat) (tss : List TemplateTimeSlot) :
    List Nat → List (Nat × TemplateTimeSlot)
  | [] => []
  | d :: ds =>
    (if isoweekday d = dow then tss.map (fun ts => (d, ts)) else []) ++
      candsOf dow tss ds

/-- Generation as a single pass over flattened candidates (proved equal to
`processDates` below). -/
def processCands (tpl : ScheduleTemplate) (doc : Nat) :
    List (Nat × TemplateTimeSlot) → List TimeSlot → Nat × List TimeSlot
  | [], st => (0, st)
  | c :: cs, st =>
    let r1 := stepCandidate tpl doc c.1 c.2 st
    let r2 := processCands tpl doc cs r1.2
    (r1.1 + r2.1, r2.2)

/-- Filter of the sweep's first queryset (doctor/tasks.py lines 20-25):
available, non-deleted slots of today whose start time has passed. -/
def sweepTodayCond (nowDate nowTime : Nat) (s : TimeSlot) : Bool :=
  s.date == nowDate && decide (s.start_time < nowTime) && s.is_available &&
    decide (s.is_deleted = false)

/-- Filter of the sweep's second queryset (doctor/tasks.py lines 33-37):
available, non-deleted slots on strictly past dates. -/
def sweepPastCond (nowDate : Nat) (s : TimeSlot) : Bool :=
  decide (s.date < nowDate) && s.is_available && decide (s.is_deleted = false)

/-- The row effect of `.update(is_available=False)`. -/
def markUnavailable (s : TimeSlot) : TimeSlot := { s with is_available := false }

/-- `update_time_slots_availability` (doctor/tasks.py): two consecutive
conditional updates — first today's already-started available slots, then
available slots on strictly past dates.  Returns the summed update counts and
the new ledger. -/
def update_time_slots_availability (nowDate nowTime : Nat) (st : List TimeSlot) :
    Nat × List TimeSlot :=
  let c1 := st.countP (sweepTodayCond nowDate nowTime)
  let st1 := st.map fun s =>
    if sweepTodayCond nowDate nowTime s then markUnavailable s else s
  let c2 := st1.countP (sweepPastCond nowDate)
  let st2 := st1.map fun s =>
    if sweepPastCond nowDate s then markUnavailable s else s
  (c1 + c2, st2)

/-- A slot that is available, not deleted, and whose date+start_time lies in
the past of the given instant — exactly the rows the sweep must flip. -/
def pastAvailB (nowDate nowTime : Nat) (s : TimeSlot) : Bool :=
  (decide (s.date < nowDate) ||
    (s.date == nowDate && decide (s.start_time < nowTime))) &&
    s.is_available && decide (s.is_deleted = false)

/-- `TimeSlotAdmin.soft_delete_slots` (doctor/admin.py): a raw
`queryset.update(is_deleted=True)` over the selected ids — no validation. -/
def soft_delete_slots (ids : List Nat) (st : List TimeSlot) :
    Nat × List TimeSlot :=
  (st.countP (fun s => s.id ∈ ids),
   st.map fun s => if s.id ∈ ids then { s with is_deleted := true } else s)

/-- `TimeSlotAdmin.restore_slots` (doctor/admin.py): a raw
`queryset.update(is_deleted=False)` over the selected ids — no validation. -/
def restore_slots (ids : List Nat) (st : List TimeSlot) :
    Nat × List TimeSlot :=
  (st.countP (fun s => s.id ∈ ids),
   st.map fun s => if s.id ∈ ids then { s with is_deleted := false } else s)

/-- `patient.Profile`, restricted to the fields the booking endpoints touch. -/
structure Profile where
  id : Nat
  user : Option Nat := none
  username : String := "user"
  full_name : String
  phone_number : String
  is_guest : Bool := false
deriving DecidableEq, Repr

/-- `Appointment.STATUS_CHOICES` (patient/models.py). -/
inductive AppointmentStatus
  | scheduled
  | visited
  | no_show
  | cancelled_by_patient
  | cancelled_by_admin
  | rescheduled
  | completed_with_treatment
deriving DecidableEq, Repr

/-- `patient.Appointment`, restricted to the fields the verified operations
touch (FKs are stored by id). -/
structure Appointment where
  id : Nat
  patient : Nat
  doctor : Nat
  time_slot : Nat
  status : AppointmentStatus := .scheduled
  description : String := ""
  treatment_appointment : Option Nat := none
deriving DecidableEq, Repr

/-- The shared persistent state of the booking operations. -/
structure DB where
  slots : List TimeSlot
  appointments : List Appointment
  profiles : List Profile
deriving DecidableEq, Repr

/-- `update_timeslot_on_appointment_save` (patient/models.py lines 247-256):
the post-save signal sets the slot's availability to whether the appointment
status is a cancellation, then saves the slot (which re-runs its
`full_clean`, hence the `Except`). -/
def update_timeslot_on_appointment_save (a : Appointment) (db : DB) :
    Except String DB :=
  match db.slots.find? (fun s => s.id == a.time_slot) with
  | none => .ok db
  | some slot =>
    match saveExistingTimeSlot
        { slot with is_available := decide (a.status = .cancelled_by_patient ∨
            a.status = .cancelled_by_admin) } db.slots with
    | .ok sl => .ok { db with slots := sl }
    | .error e => .error e

/-- `update_timeslot_on_appointment_delete` (patient/models.py lines
258-265): the post-delete signal unconditionally marks the slot available
again (and saves it). -/
def update_timeslot_on_appointment_delete (a : Appointment) (db : DB) :
    Except String DB :=
  match db.slots.find? (fun s => s.id == a.time_slot) with
  | none => .ok db
  | some slot =>
    match saveExistingTimeSlot { slot with is_available := true } db.slots with
    | .ok sl => .ok { db with slots := sl }
    | .error e => .error e

def freshProfileId (ps : List Profile) : Nat :=
  ps.foldr (fun p m => max p.id m) 0 + 1

def freshAppointmentId (as : List Appointment) : Nat :=
  as.foldr (fun a m => max a.id m) 0 + 1

/-- Outcomes of the two booking endpoints (HTTP status + error family). -/
inductive BookResult
  | success (appointment_id : Nat)
  | errMissingFields
  | errNotFound
  | errTaken
  | errPastDate
  | errValidation (msg : String)
  | errIntegrity
deriving DecidableEq, Repr

def BookResult.isSuccess : BookResult → Bool
  | .success _ => true
  | _ => false

/-- The fresh patient profile the transactional endpoint creates when no
profile matches the phone (a `User` plus a `Profile`, doctor/views.py lines
688-701). -/
def newPatientRecord (db : DB) (phone name : String) : Profile :=
  { id := freshProfileId db.profiles, user := some (freshProfileId db.profiles),
    username := "patient_" ++ (phone.replace "+" ""), full_name := name,
    phone_number := phone }

/-- "Get or create the patient profile by phone, updating the stored name if
it changed" (doctor/views.py lines 680-701): returns the resolved profile and
the updated profile table. -/
def resolvePatientByPhone (db : DB) (phone name : String) :
    Profile × List Profile :=
  match db.profiles.find? (fun p => p.phone_number == phone) with
  | some p =>
    if p.full_name ≠ name then
      ({ p with full_name := name },
       db.profiles.map fun q =>
         if q.id = p.id then { p with full_name := name } else q)
    else (p, db.profiles)
  | none =>
    (newPatientRecord db phone name, db.profiles ++ [newPatientRecord db phone name])

/-- The appointment row `Appointment.objects.create(...)` inserts in the
transactional endpoint (doctor/views.py lines 703-710). -/
def bookNewAppt (db : DB) (slot : TimeSlot) (phone name cmt : String) :
    Appointment :=
  { id := freshAppointmentId db.appointments,
    patient := (resolvePatientByPhone db phone name).1.id,
    doctor := slot.doctor, time_slot := slot.id, status := .scheduled,
    description := cmt }

/-- The state inside the transaction right after the appointment insert. -/
def bookDb1 (db : DB) (slot : TimeSlot) (phone name cmt : String) : DB :=
  { db with profiles := (resolvePatientByPhone db phone name).2,
            appointments := db.appointments ++ [bookNewAppt db slot phone name cmt] }

/-- The final step of the transactional endpoint: re-fetch the slot, set
`is_available = False` and save it (doctor/views.py lines 712-714); a
validation error rolls back to the pre-transaction state `dbOrig`. -/
def bookFinalizeSlot (db2 : DB) (slotId apptId : Nat) (dbOrig : DB) :
    BookResult × DB :=
  match db2.slots.find? (fun s => s.id == slotId) with
  | none => (.errValidation "slot lost", dbOrig)
  | some slotNow =>
    match saveExistingTimeSlot { slotNow with is_available := false }
        db2.slots with
    | .ok sl => (.success apptId, { db2 with slots := sl })
    | .error e => (.errValidation e, dbOrig)

/-- Body of the atomic block once the slot is locked and known available
(doctor/views.py lines 667-725): reject when an appointment already
references the slot (marking it unavailable on the way out), otherwise
resolve the patient, insert the appointment (firing the post-save signal) and
flip the slot.  A `ValidationError` anywhere rolls back to `db`. -/
def bookClaimSlot (db : DB) (slot : TimeSlot) (phone name cmt : String) :
    BookResult × DB :=
  match db.appointments.find? (fun a => a.time_slot == slot.id) with
  | some _ =>
    match saveExistingTimeSlot { slot with is_available := false } db.slots with
    | .ok sl => (.errTaken, { db with slots := sl })
    | .error e => (.errValidation e, db)
  | none =>
    match update_timeslot_on_appointment_save
        (bookNewAppt db slot phone name cmt)
        (bookDb1 db slot phone name cmt) with
    | .error e => (.errValidation e, db)
    | .ok db2 =>
      bookFinalizeSlot db2 slot.id (bookNewAppt db slot phone name cmt).id db

/-- `create_appointment` (doctor/views.py lines 608-737), the function-based
endpoint: presence check on the three fields, then a `transaction.atomic()`
block that locks the slot row, re-checks only `is_available`, and claims the
slot. -/
def create_appointment (db : DB) (time_slot_id : Option Nat)
    (phone_number full_name : Option String) (comment : String) :
    BookResult × DB :=
  match time_slot_id, phone_number, full_name with
  | some sid, some phone, some name =>
    match db.slots.find? (fun s => s.is_deleted = false && s.id == sid) with
    | none => (.errNotFound, db)
    | some slot =>
      if slot.is_available = false then (.errTaken, db)
      else bookClaimSlot db slot phone name comment
  | _, _, _ => (.errMissingFields, db)

/-- Python's `str.strip()`: drop whitespace from both ends. -/
def strip (s : String) : String :=
  ⟨((s.toList.dropWhile Char.isWhitespace).reverse.dropWhile
      Char.isWhitespace).reverse⟩

/-- Character class of the Kyrgyz name validator
`r'^[а-яА-ЯёЁa-zA-ZҢңӨөҮү\s\-]+$'`. -/
def nameCharOk (c : Char) : Bool :=
  ('а' ≤ c && c ≤ 'я') || ('А' ≤ c && c ≤ 'Я') || c == 'ё' || c == 'Ё' ||
    ('a' ≤ c && c ≤ 'z') || ('A' ≤ c && c ≤ 'Z') ||
    c == 'Ң' || c == 'ң' || c == 'Ө' || c == 'ө' || c == 'Ү' || c == 'ү' ||
    c.isWhitespace || c == '-'

def nameMatches (s : String) : Bool :=
  s.length > 0 && s.toList.all nameCharOk

/-- The phone validator
`r'^\+996(22\d|55\d|70\d|99\d|77\d|54\d|51\d|57\d|56\d|50\d)\d{6}$'`. -/
def phoneMatches (s : String) : Bool :=
  let cs := s.toList
  cs.length == 13 && cs.take 4 == ['+', '9', '9', '6'] &&
    (cs.drop 4).all Char.isDigit &&
    match cs.drop 4 with
    | a :: b :: _ =>
      [('2','2'),('5','5'),('7','0'),('9','9'),('7','7'),
       ('5','4'),('5','1'),('5','7'),('5','6'),('5','0')].contains (a, b)
    | _ => false

/-- The appointment row the viewset action inserts (doctor/views.py lines
507-514). -/
def viewsetNewAppt (db : DB) (patient : Profile) (slot : TimeSlot)
    (comment : String) : Appointment :=
  { id := freshAppointmentId db.appointments, patient := patient.id,
    doctor := slot.doctor, time_slot := slot.id, status := .scheduled,
    description := comment }

/-- The state right after the viewset action's appointment insert. -/
def viewsetDb1 (db : DB) (profiles' : List Profile) (patient : Profile)
    (slot : TimeSlot) (comment : String) : DB :=
  { db with profiles := profiles',
            appointments :=
              db.appointments ++ [viewsetNewAppt db patient slot comment] }

/-- Shared tail of `DoctorViewSet.create_appointment` after the patient
profile is resolved: create the appointment (here the `OneToOneField`
uniqueness on `time_slot` makes a second row an IntegrityError, which this
endpoint does not catch), fire the post-save signal, then flip the slot.
There is no transaction, so earlier writes persist on later failures. -/
def viewsetCreateTail (db : DB) (profiles' : List Profile) (patient : Profile)
    (slot : TimeSlot) (comment : String) : BookResult × DB :=
  if db.appointments.any (fun a => a.time_slot == slot.id) then
    (.errIntegrity, { db with profiles := profiles' })
  else
    match update_timeslot_on_appointment_save
        (viewsetNewAppt db patient slot comment)
        (viewsetDb1 db profiles' patient slot comment) with
    | .error e => (.errValidation e, viewsetDb1 db profiles' patient slot comment)
    | .ok db2 =>
      match db2.slots.find? (fun s => s.id == slot.id) with
      | none => (.errValidation "slot lost", db2)
      | some slotNow =>
        match saveExistingTimeSlot { slotNow with is_available := false }
            db2.slots with
        | .ok sl =>
          (.success (viewsetNewAppt db patient slot comment).id,
           { db2 with slots := sl })
        | .error e => (.errValidation e, db2)

/-- `DoctorViewSet.create_appointment` (doctor/views.py lines 415-533): looks
the slot up among the doctor's live available slots (404 otherwise), rejects
slots dated before today, validates the guest name and phone, resolves the
patient (authenticated profile, or guest profile by phone — the random
guest-username suffix is rendered deterministically from the fresh id), and
creates the appointment without any lock or transaction. -/
def viewset_create_appointment (db : DB) (doctor : Nat) (slot_id : Option Nat)
    (patient_name patient_phone comment : String) (today : Nat)
    (authPatient : Option Nat) : BookResult × DB :=
  match slot_id with
  | none => (.errMissingFields, db)
  | some sid =>
    match db.slots.find? (fun s =>
        s.is_deleted = false && s.id == sid && s.doctor == doctor &&
          s.is_available) with
    | none => (.errNotFound, db)
    | some slot =>
      if slot.date < today then (.errPastDate, db)
      else
        let name := strip patient_name
        let phone := strip patient_phone
        let cmt := strip comment
        if name = "" then (.errValidation "patient name required", db)
        else if name.length < 2 then (.errValidation "patient name too short", db)
        else if nameMatches name = false then
          (.errValidation "patient name has invalid characters", db)
        else if phone = "" then (.errValidation "phone required", db)
        else if phoneMatches phone = false then
          (.errValidation "invalid phone format", db)
        else
          match authPatient with
          | some pid =>
            match db.profiles.find? (fun p => p.id == pid) with
            | none => (.errIntegrity, db)
            | some patient => viewsetCreateTail db db.profiles patient slot cmt
          | none =>
            match db.profiles.find? (fun p => p.phone_number == phone) with
            | some p =>
              let patient := if p.full_name ≠ name then { p with full_name := name }
                             else p
              let profiles' := db.profiles.map fun q =>
                if q.id = p.id then patient else q
              viewsetCreateTail db profiles' patient slot cmt
            | none =>
              let patient : Profile :=
                { id := freshProfileId db.profiles,
                  username := "guest_" ++ toString (freshProfileId db.profiles),
                  full_name := name, phone_number := phone, is_guest := true }
              viewsetCreateTail db (db.profiles ++ [patient]) patient slot cmt

/-- The attribute names defined on the `Doctor` class (fields and methods,
doctor/models.py lines 107-256). -/
def doctorAttributeNames : List String :=
  ["user", "patronymic", "photo", "room_number", "bio", "full_bio",
   "phone_number", "specialization", "is_active", "created_at", "updated_at",
   "clean", "get_available_slots", "save"]

/-- `Appointment.clean` (patient/models.py lines 216-245).  Its first check
calls `self.doctor.is_available(...)`; `Doctor` defines no such attribute, so
the lookup raises `AttributeError` before any rule is evaluated.  The
remaining checks are translated as written for completeness (the source would
also TypeError there, comparing a time to a datetime; the slot's combined
datetime is used so the comparisons are typeable). -/
def appointment_clean (a : Appointment) (slot : TimeSlot)
    (nowDate nowTime : Nat) (others : List Appointment) :
    Except String Unit :=
  if doctorAttributeNames.contains "is_available" = false then
    .error "AttributeError: Doctor has no attribute is_available"
  else
    let slotDT := slot.date * 1440 + slot.start_time
    let nowDT := nowDate * 1440 + nowTime
    if slotDT < nowDT then .error "booking in the past"
    else if slot.start_time / 60 < 8 ∨ slot.start_time / 60 ≥ 18 then
      .error "outside working hours"
    else if slot.start_time % 60 % 5 ≠ 0 then .error "not aligned to 5 minutes"
    else if others.any (fun o =>
        o.id != a.id && o.doctor == a.doctor && o.time_slot == a.time_slot) then
      .error "slot already booked"
    else if others.any (fun o =>
        o.id != a.id && o.patient == a.patient && o.time_slot == a.time_slot) then
      .error "patient already booked at this time"
    else if a.status = .rescheduled ∧ a.treatment_appointment = none then
      .error "no reschedule target"
    else if a.treatment_appointment ≠ none ∧ a.status ≠ .rescheduled then
      .error "reschedule target without rescheduled status"
    else .ok ()

/-! ## Invariants -/

/-- The natural key of a slot row: the `unique_doctor_timeslot` constraint
columns (doctor, date, start_time). -/
def slotKey (s : TimeSlot) : Nat × Nat × Nat := (s.doctor, s.date, s.start_time)

/-- Pairwise-distinct primary keys. -/
def UniqueIds (st : List TimeSlot) : Prop := (st.map TimeSlot.id).Nodup

/-- The `unique_doctor_timeslot` DB constraint as a state invariant. -/
def UniqueKeys (st : List TimeSlot) : Prop := (st.map slotKey).Nodup

/-- Two slots of the same doctor and date whose true (un-wrapped)
[start, start+duration) intervals intersect. -/
def slotsOverlap (x y : TimeSlot) : Prop :=
  x.doctor = y.doctor ∧ x.date = y.date ∧
    x.start_time < y.start_time + y.duration ∧
    y.start_time < x.start_time + x.duration

instance (x y : TimeSlot) : Decidable (slotsOverlap x y) := by
  unfold slotsOverlap; infer_instance

/-- No two available, non-deleted slots overlap (per doctor and date). -/
def NoOverlap (st : List TimeSlot) : Prop :=
  st.Pairwise fun x y =>
    x.is_available = true → x.is_deleted = false →
    y.is_available = true → y.is_deleted = false → ¬ slotsOverlap x y

/-- Every slot's interval stays inside its day (no midnight wrap-around, so
`get_end_time` is the true end), both for the stored duration and for the
type-determined duration `clean` rewrites it to. -/
def WellTimed (st : List TimeSlot) : Prop :=
  ∀ s ∈ st, s.start_time + s.duration < 1440 ∧
    s.start_time + slotDurations s.slot_type < 1440

/-- At most one appointment row references any given slot (the
`OneToOneField` on `time_slot`, which subsumes the `unique_doctor_time_slot`
constraint on (doctor, time_slot)). -/
def AtMostOnePerSlot (db : DB) : Prop :=
  db.appointments.Pairwise fun a b => a.time_slot ≠ b.time_slot

/-! ## Elimination lemmas for the slot write operations -/

theorem clean_ok_elim {s s' : TimeSlot} {db : List TimeSlot}
    (h : timeSlotClean s db = .ok s') :
    s' = cleanAdjusted s ∧ overlapViolation s' db = false ∧
      ∀ t, s'.template = some t →
        hoursViolation s' t = false ∧ breakViolation s' t = false := by
  unfold timeSlotClean at h
  by_cases ho : overlapViolation (cleanAdjusted s) db
  · simp [ho] at h
  · simp only [ho, if_false, Bool.false_eq_true] at h
    rcases ht : (cleanAdjusted s).template with _ | t
    · rw [ht] at h
      simp only [Except.ok.injEq] at h
      subst h
      exact ⟨rfl, by simpa using ho, fun t hsome => by rw [ht] at hsome; cases hsome⟩
    · rw [ht] at h
      by_cases hh : hoursViolation (cleanAdjusted s) t
      · simp [hh] at h
      · by_cases hb : breakViolation (cleanAdjusted s) t
        · simp [hh, hb] at h
        · simp only [hh, hb, Bool.false_eq_true, if_false, Except.ok.injEq] at h
          subst h
          refine ⟨rfl, by simpa using ho, fun t' hsome => ?_⟩
          rw [ht] at hsome
          cases hsome
          exact ⟨by simpa using hh, by simpa using hb⟩

theorem clean_error_elim {s : TimeSlot} {db : List TimeSlot} {e : String}
    (h : timeSlotClean s db = .error e) :
    overlapViolation (cleanAdjusted s) db = true ∨
      ∃ t, (cleanAdjusted s).template = some t ∧
        (hoursViolation (cleanAdjusted s) t = true ∨
         breakViolation (cleanAdjusted s) t = true) := by
  unfold timeSlotClean at h
  by_cases ho : overlapViolation (cleanAdjusted s) db
  · exact Or.inl ho
  · simp only [ho, Bool.false_eq_true, if_false] at h
    rcases ht : (cleanAdjusted s).template with _ | t
    · rw [ht] at h; cases h
    · rw [ht] at h
      by_cases hh : hoursViolation (cleanAdjusted s) t
      · exact Or.inr ⟨t, rfl, Or.inl hh⟩
      · by_cases hb : breakViolation (cleanAdjusted s) t
        · exact Or.inr ⟨t, rfl, Or.inr hb⟩
        · simp [hh, hb] at h

theorem clean_intro {s : TimeSlot} {db : List TimeSlot}
    (ho : overlapViolation (cleanAdjusted s) db = false)
    (ht : ∀ t, (cleanAdjusted s).template = some t →
      hoursViolation (cleanAdjusted s) t = false ∧
      breakViolation (cleanAdjusted s) t = false) :
    timeSlotClean s db = .ok (cleanAdjusted s) := by
  unfold timeSlotClean
  simp only [ho, Bool.false_eq_true, if_false]
  rcases hm : (cleanAdjusted s).template with _ | t
  · rfl
  · rcases ht t hm with ⟨h1, h2⟩
    simp [h1, h2]

theorem saveExisting_ok_elim {s : TimeSlot} {db sl : List TimeSlot}
    (h : saveExistingTimeSlot s db = .ok sl) :
    sl = replaceSlot s.id (cleanAdjusted s) db ∧
      timeSlotClean s db = .ok (cleanAdjusted s) ∧
      validateUniqueOk (cleanAdjusted s) db = true := by
  unfold saveExistingTimeSlot at h
  rcases hc : timeSlotClean s db with e | s'
  · rw [hc] at h; cases h
  · have hshape := (clean_ok_elim hc).1
    subst hshape
    rw [hc] at h
    by_cases hu : validateUniqueOk (cleanAdjusted s) db
    · simp only [hu, if_true, Except.ok.injEq] at h
      exact ⟨h.symm, rfl, hu⟩
    · simp [hu] at h

theorem createTimeSlot_ok_elim {doc date t dur : Nat} {ty : SlotType}
    {tplo : Option ScheduleTemplate} {db sl : List TimeSlot} {s' : TimeSlot}
    (h : createTimeSlot doc date t dur ty tplo db = .ok (sl, s')) :
    s' = cleanAdjusted (newSlotRecord doc date t dur ty tplo db) ∧
      sl = db ++ [s'] ∧
      timeSlotClean (newSlotRecord doc date t dur ty tplo db) db = .ok s' ∧
      validateUniqueOk s' db = true := by
  unfold createTimeSlot at h
  rcases hc : timeSlotClean (newSlotRecord doc date t dur ty tplo db) db
    with e | s''
  · rw [hc] at h; cases h
  · rw [hc] at h
    by_cases hu : validateUniqueOk s'' db
    · simp only [hu, if_true, Except.ok.injEq, Prod.mk.injEq] at h
      rcases h with ⟨h1, h2⟩
      subst h2
      exact ⟨(clean_ok_elim hc).1, h1.symm, rfl, hu⟩
    · simp [hu] at h

/-! ## The expiry sweep (C7) -/

theorem sweep_point (nowDate nowTime : Nat) (x : TimeSlot) :
    ((if sweepPastCond nowDate
        (if sweepTodayCond nowDate nowTime x then markUnavailable x else x) then
      markUnavailable (if sweepTodayCond nowDate nowTime x then markUnavailable x else x)
    else (if sweepTodayCond nowDate nowTime x then markUnavailable x else x)) =
      if pastAvailB nowDate nowTime x then markUnavailable x else x) ∧
    (((if sweepTodayCond nowDate nowTime x then 1 else 0) : Nat) +
      (if sweepPastCond nowDate
          (if sweepTodayCond nowDate nowTime x then markUnavailable x else x)
        then 1 else 0) =
      if pastAvailB nowDate nowTime x then 1 else 0) := by
  cases hav : x.is_available with
  | false =>
    simp [sweepTodayCond, sweepPastCond, pastAvailB, hav]
  | true =>
    cases hdel : x.is_deleted with
    | true => simp [sweepTodayCond, sweepPastCond, pastAvailB, hav, hdel]
    | false =>
      by_cases hd : x.date = nowDate
      · have ha : ¬ (x.date < nowDate) := by omega
        by_cases hc : x.start_time < nowTime
        · simp [sweepTodayCond, sweepPastCond, pastAvailB, markUnavailable,
            hav, hdel, hd, hc, ha]
        · simp [sweepTodayCond, sweepPastCond, pastAvailB, hav, hdel, hd, hc, ha]
      · by_cases ha : x.date < nowDate
        · simp [sweepTodayCond, sweepPastCond, pastAvailB, markUnavailable,
            hav, hdel, hd, ha]
        · simp [sweepTodayCond, sweepPastCond, pastAvailB, hav, hdel, hd, ha]

theorem sweep_count_split (nowDate nowTime : Nat) (st : List TimeSlot) :
    st.countP (sweepTodayCond nowDate nowTime) +
      (st.map fun s =>
        if sweepTodayCond nowDate nowTime s then markUnavailable s else s).countP
        (sweepPastCond nowDate) =
      st.countP (pastAvailB nowDate nowTime) := by
  induction st with
  | nil => rfl
  | cons x xs ih =>
    simp only [List.map_cons, List.countP_cons]
    have hpt := (sweep_point nowDate nowTime x).2
    by_cases h1 : sweepTodayCond nowDate nowTime x <;>
      by_cases h3 : pastAvailB nowDate nowTime x <;>
        simp only [h1, h3, if_true, if_false] at hpt ⊢ <;> omega

/-- C7: the expiry sweep is exactly the conditional update "set unavailable
where available, non-deleted, and date+start_time has passed": it returns the
count of such rows, flips exactly those rows and touches nothing else; after
one run every non-deleted past slot is unavailable. -/
theorem expiry_sweep_marks_exactly_past_available (nowDate nowTime : Nat)
    (st : List TimeSlot) :
    update_time_slots_availability nowDate nowTime st =
      (st.countP (pastAvailB nowDate nowTime),
       st.map fun s =>
         if pastAvailB nowDate nowTime s then markUnavailable s else s) ∧
    ∀ s ∈ (update_time_slots_availability nowDate nowTime st).2,
      s.is_deleted = false →
      (s.date < nowDate ∨ (s.date = nowDate ∧ s.start_time < nowTime)) →
      s.is_available = false := by
  have hmain : update_time_slots_availability nowDate nowTime st =
      (st.countP (pastAvailB nowDate nowTime),
       st.map fun s =>
         if pastAvailB nowDate nowTime s then markUnavailable s else s) := by
    have hc := sweep_count_split nowDate nowTime st
    have hm : ((st.map fun s =>
        if sweepTodayCond nowDate nowTime s then markUnavailable s else s).map
          fun s => if sweepPastCond nowDate s then markUnavailable s else s) =
        st.map fun s =>
          if pastAvailB nowDate nowTime s then markUnavailable s else s := by
      rw [List.map_map]
      exact List.map_congr_left fun x _ => (sweep_point nowDate nowTime x).1
    simp only [update_time_slots_availability, hc, hm]
  refine ⟨hmain, ?_⟩
  intro s hs hdel hpast
  rw [hmain] at hs
  simp only [List.mem_map] at hs
  rcases hs with ⟨x, _, hx⟩
  by_cases hpa : pastAvailB nowDate nowTime x
  · simp only [hpa, if_true] at hx
    rw [← hx]
    rfl
  · simp only [hpa, Bool.false_eq_true, if_false] at hx
    subst hx
    cases havx : x.is_available with
    | false => rfl
    | true =>
      exfalso
      apply hpa
      simp only [pastAvailB, hdel, havx, Bool.and_true,
        Bool.or_eq_true, Bool.and_eq_true, beq_iff_eq, decide_eq_true_eq]
      exact ⟨hpast, trivial⟩

/-! ## At most one appointment per slot (C1) -/

theorem pairwise_append_one {α : Type _} {R : α → α → Prop} {l : List α}
    {a : α} (h : l.Pairwise R) (ha : ∀ x ∈ l, R x a) :
    (l ++ [a]).Pairwise R := by
  rw [List.pairwise_append]
  refine ⟨h, by simp, fun x hx b hb => ?_⟩
  rcases List.mem_singleton.mp hb with rfl
  exact ha x hx

/-- The post-save signal only rewrites the slot table. -/
theorem signal_save_state (a : Appointment) (db db' : DB)
    (h : update_timeslot_on_appointment_save a db = .ok db') :
    db'.appointments = db.appointments ∧ db'.profiles = db.profiles := by
  unfold update_timeslot_on_appointment_save at h
  rcases hf : db.slots.find? (fun s => s.id == a.time_slot) with _ | slot
  · rw [hf] at h
    have h2 : Except.ok (ε := String) db = .ok db' := h
    injection h2 with h3
    rw [← h3]
    exact ⟨rfl, rfl⟩
  · rw [hf] at h
    have h2 : (match saveExistingTimeSlot
        { slot with is_available := decide (a.status = .cancelled_by_patient ∨
            a.status = .cancelled_by_admin) } db.slots with
      | .ok sl => Except.ok { db with slots := sl }
      | .error e => Except.error e) = .ok db' := h
    rcases hsv : saveExistingTimeSlot
        { slot with is_available := decide (a.status = .cancelled_by_patient ∨
            a.status = .cancelled_by_admin) } db.slots with e | sl
    · rw [hsv] at h2; cases h2
    · rw [hsv] at h2
      injection h2 with h3
      rw [← h3]
      exact ⟨rfl, rfl⟩

/-- What `bookClaimSlot` does to the appointment table: either nothing, or —
only when no appointment referenced the slot — it appends the one new row for
that slot. -/
theorem bookClaimSlot_appointments (db : DB) (slot : TimeSlot)
    (phone name cmt : String) :
    (bookClaimSlot db slot phone name cmt).2.appointments = db.appointments ∨
    ((∀ x ∈ db.appointments, (x.time_slot == slot.id) = false) ∧
     (bookClaimSlot db slot phone name cmt).2.appointments =
       db.appointments ++ [bookNewAppt db slot phone name cmt]) := by
  rcases hfa : db.appointments.find? (fun a => a.time_slot == slot.id)
    with _ | a1
  · rcases hsig : update_timeslot_on_appointment_save
        (bookNewAppt db slot phone name cmt)
        (bookDb1 db slot phone name cmt) with e | db2
    · left
      simp only [bookClaimSlot, hfa, hsig]
    · rcases hf2 : db2.slots.find? (fun s => s.id == slot.id) with _ | slotNow
      · left
        simp only [bookClaimSlot, hfa, hsig, bookFinalizeSlot, hf2]
      · rcases hsv : saveExistingTimeSlot { slotNow with is_available := false }
            db2.slots with e2 | sl
        · left
          simp only [bookClaimSlot, hfa, hsig, bookFinalizeSlot, hf2, hsv]
        · right
          refine ⟨fun x hx => by simpa using List.find?_eq_none.mp hfa x hx, ?_⟩
          have happ := (signal_save_state _ _ _ hsig).1
          simp only [bookClaimSlot, hfa, hsig, bookFinalizeSlot, hf2, hsv]
          rw [show ({ db2 with slots := sl } : DB).appointments =
            db2.appointments from rfl, happ]
          rfl
  · left
    rcases hsv : saveExistingTimeSlot { slot with is_available := false }
        db.slots with e | sl
    · simp only [bookClaimSlot, hfa, hsv]
    · simp only [bookClaimSlot, hfa, hsv]

theorem bookClaimSlot_preserves (db : DB) (slot : TimeSlot)
    (phone name cmt : String) (h : AtMostOnePerSlot db) :
    AtMostOnePerSlot (bookClaimSlot db slot phone name cmt).2 := by
  rcases bookClaimSlot_appointments db slot phone name cmt with heq | ⟨hnone, heq⟩
  · unfold AtMostOnePerSlot
    rw [heq]
    exact h
  · unfold AtMostOnePerSlot
    rw [heq]
    refine pairwise_append_one h ?_
    intro x hx hcon
    have hx2 := hnone x hx
    have hts : (bookNewAppt db slot phone name cmt).time_slot = slot.id := rfl
    rw [hts] at hcon
    simp [hcon] at hx2

theorem viewsetCreateTail_preserves (db : DB) (profiles' : List Profile)
    (patient : Profile) (slot : TimeSlot) (cmt : String)
    (h : AtMostOnePerSlot db) :
    AtMostOnePerSlot (viewsetCreateTail db profiles' patient slot cmt).2 := by
  unfold viewsetCreateTail
  by_cases hany : db.appointments.any (fun a => a.time_slot == slot.id) = true
  · rw [if_pos hany]
    exact h
  · have hall : ∀ x ∈ db.appointments, (x.time_slot == slot.id) = false := by
      simpa using hany
    have hins : AtMostOnePerSlot (viewsetDb1 db profiles' patient slot cmt) := by
      unfold AtMostOnePerSlot viewsetDb1
      refine pairwise_append_one h ?_
      intro x hx hcon
      have hx2 := hall x hx
      have hts : (viewsetNewAppt db patient slot cmt).time_slot = slot.id := rfl
      rw [hts] at hcon
      simp [hcon] at hx2
    rw [if_neg hany]
    rcases hsig : update_timeslot_on_appointment_save
        (viewsetNewAppt db patient slot cmt)
        (viewsetDb1 db profiles' patient slot cmt) with e | db2
    · simp only [hsig]
      exact hins
    · have happ := (signal_save_state _ _ _ hsig).1
      have hdb2 : AtMostOnePerSlot db2 := by
        unfold AtMostOnePerSlot
        rw [happ]
        exact hins
      simp only [hsig]
      rcases hf2 : db2.slots.find? (fun s => s.id == slot.id) with _ | slotNow
      · simp only [hf2]
        exact hdb2
      · rcases hsv : saveExistingTimeSlot { slotNow with is_available := false }
            db2.slots with e2 | sl
        · simp only [hf2, hsv]
          exact hdb2
        · simp only [hf2, hsv]
          exact hdb2

/-- C1: a booking attempt against a slot that already has an appointment is
rejected (reported as taken — possibly after marking the slot unavailable —
or as a validation failure) and never creates a second row; and both booking
endpoints preserve "at most one appointment references any slot" in every
branch. -/
theorem booking_at_most_one_appointment_per_slot (db : DB) (sid : Nat)
    (phone name cmt : String) (tsid : Option Nat) (pho nam : Option String)
    (cmt2 : String) (doctor : Nat) (slot_id : Option Nat)
    (pname pphone pcmt : String) (today : Nat) (auth : Option Nat) :
    ((∃ a ∈ db.appointments, a.time_slot = sid) →
      (create_appointment db (some sid) (some phone) (some name) cmt).1.isSuccess
          = false ∧
      (create_appointment db (some sid) (some phone) (some name) cmt).2.appointments
          = db.appointments)
    ∧ (AtMostOnePerSlot db →
        AtMostOnePerSlot (create_appointment db tsid pho nam cmt2).2
        ∧ AtMostOnePerSlot
            (viewset_create_appointment db doctor slot_id pname pphone pcmt
              today auth).2) := by
  constructor
  · rintro ⟨a0, ha0, ha0t⟩
    rcases hf : db.slots.find? (fun s => s.is_deleted = false && s.id == sid)
      with _ | slot
    · simp only [create_appointment, hf]
      exact ⟨rfl, trivial⟩
    · have hsid : slot.id = sid := by
        have hp := List.find?_some hf
        simp only [Bool.and_eq_true, beq_iff_eq, decide_eq_true_eq] at hp
        exact hp.2
      simp only [create_appointment, hf]
      by_cases hav : slot.is_available = false
      · rw [if_pos hav]
        exact ⟨rfl, rfl⟩
      · rw [if_neg hav]
        rcases hfa : db.appointments.find? (fun x => x.time_slot == slot.id)
          with _ | a1
        · exfalso
          apply List.find?_eq_none.mp hfa a0 ha0
          simp [ha0t, hsid]
        · simp only [bookClaimSlot, hfa]
          rcases hsv : saveExistingTimeSlot { slot with is_available := false }
              db.slots with e | sl
          · simp only [hsv]
            exact ⟨rfl, trivial⟩
          · simp only [hsv]
            exact ⟨rfl, trivial⟩
  · intro hInv
    constructor
    · rcases tsid with _ | sid' <;> rcases pho with _ | phone' <;>
        rcases nam with _ | name'
      · exact hInv
      · exact hInv
      · exact hInv
      · exact hInv
      · exact hInv
      · exact hInv
      · exact hInv
      · rcases hf : db.slots.find?
            (fun s => s.is_deleted = false && s.id == sid') with _ | slot
        · simp only [create_appointment, hf]
          exact hInv
        · simp only [create_appointment, hf]
          by_cases hav : slot.is_available = false
          · rw [if_pos hav]
            exact hInv
          · rw [if_neg hav]
            exact bookClaimSlot_preserves _ _ _ _ _ hInv
    · rcases slot_id with _ | sid2
      · exact hInv
      · rcases hf : db.slots.find? (fun s =>
            s.is_deleted = false && s.id == sid2 && s.doctor == doctor &&
              s.is_available) with _ | slot
        · simp only [viewset_create_appointment, hf]
          exact hInv
        · simp only [viewset_create_appointment, hf]
          by_cases hdt : slot.date < today
          · rw [if_pos hdt]
            exact hInv
          · rw [if_neg hdt]
            by_cases h1 : strip pname = ""
            · rw [if_pos h1]
              exact hInv
            · rw [if_neg h1]
              by_cases h2 : (strip pname).length < 2
              · rw [if_pos h2]
                exact hInv
              · rw [if_neg h2]
                by_cases h3 : nameMatches (strip pname) = false
                · rw [if_pos h3]
                  exact hInv
                · rw [if_neg h3]
                  by_cases h4 : strip pphone = ""
                  · rw [if_pos h4]
                    exact hInv
                  · rw [if_neg h4]
                    by_cases h5 : phoneMatches (strip pphone) = false
                    · rw [if_pos h5]
                      exact hInv
                    · rw [if_neg h5]
                      rcases auth with _ | pid
                      · rcases hfp : db.profiles.find?
                            (fun p => p.phone_number == strip pphone)
                            with _ | p
                        · simp only [hfp]
                          exact viewsetCreateTail_preserves _ _ _ _ _ hInv
                        · simp only [hfp]
                          exact viewsetCreateTail_preserves _ _ _ _ _ hInv
                      · rcases hfp2 : db.profiles.find? (fun p => p.id == pid)
                            with _ | patient
                        · simp only [hfp2]
                          exact hInv
                        · simp only [hfp2]
                          exact viewsetCreateTail_preserves _ _ _ _ _ hInv

def slotW1 : TimeSlot :=
  { id := 1, doctor := 1, date := 5, start_time := 600, duration := 15,
    slot_type := .consultation }

def apptW1 : Appointment :=
  { id := 1, patient := 1, doctor := 1, time_slot := 1, status := .scheduled }

def dbW1 : DB :=
  { slots := [slotW1], appointments := [apptW1], profiles := [] }

theorem booking_at_most_one_appointment_per_slot_witness :
    (create_appointment dbW1 (some 1) (some "+996700123456") (some "Bob")
        "").1.isSuccess = false ∧
    (create_appointment dbW1 (some 1) (some "+996700123456") (some "Bob")
        "").2.appointments = dbW1.appointments ∧
    AtMostOnePerSlot (create_appointment dbW1 (some 1) (some "+996700123456")
        (some "Bob") "").2 := by
  have h := booking_at_most_one_appointment_per_slot dbW1 1 "+996700123456"
    "Bob" "" (some 1) (some "+996700123456") (some "Bob") "" 1 (some 1)
    "Ann" "+996700123456" "" 5 none
  have hex : ∃ a ∈ dbW1.appointments, a.time_slot = 1 :=
    ⟨apptW1, by simp [dbW1], rfl⟩
  have hinv : AtMostOnePerSlot dbW1 := by
    simp [AtMostOnePerSlot, dbW1]
  exact ⟨(h.1 hex).1, (h.1 hex).2, (h.2 hinv).1⟩

/-! ## Generation failure semantics (C9) -/

/-- C9: a missing doctor reference is a hard error (nothing created); a
template with zero slot definitions aborts reporting zero slots generated and
an unchanged ledger; a per-candidate creation failure is caught, leaves the
ledger unchanged and does not abort the rest of the batch. -/
theorem generation_failure_semantics (tpl : ScheduleTemplate)
    (tss : List TemplateTimeSlot) (a : Nat) (b : Option Nat)
    (st : List TimeSlot) (doc d : Nat) (ts : TemplateTimeSlot)
    (rest : List TemplateTimeSlot) (e : String) :
    (tpl.doctor = none →
      create_time_slots tpl tss a b st = .error "cannot create slots: no doctor")
    ∧ (tpl.doctor ≠ none → create_time_slots tpl [] a b st = .ok (0, st))
    ∧ (is_break_time tpl ts.start_time = false →
       (st.filter (matchesCand doc d ts)).head? = none →
       createTimeSlot doc d ts.start_time ts.duration ts.slot_type (some tpl) st
         = .error e →
       stepCandidate tpl doc d ts st = (0, st) ∧
       processSlots tpl doc d (ts :: rest) st = processSlots tpl doc d rest st) := by
  refine ⟨fun hn => by simp [create_time_slots, hn], fun hs => ?_, ?_⟩
  · rcases htpl : tpl.doctor with _ | doc0
    · exact absurd htpl hs
    · simp [create_time_slots, htpl]
  · intro hbr hfind hcr
    have hstep : stepCandidate tpl doc d ts st = (0, st) := by
      unfold stepCandidate
      rw [hbr]
      simp only [Bool.false_eq_true, if_false, hfind, hcr]
    refine ⟨hstep, ?_⟩
    have hdef : processSlots tpl doc d (ts :: rest) st =
        ((stepCandidate tpl doc d ts st).1 +
          (processSlots tpl doc d rest (stepCandidate tpl doc d ts st).2).1,
         (processSlots tpl doc d rest (stepCandidate tpl doc d ts st).2).2) := rfl
    rw [hdef, hstep]
    simp

def tplW9 : ScheduleTemplate :=
  { id := 9, doctor := none, day_of_week := 1, start_time := 480,
    end_time := 1020 }

def tplW9b : ScheduleTemplate := { tplW9 with doctor := some 1 }

def tsW9 : TemplateTimeSlot :=
  { start_time := 300, duration := 15, slot_type := .consultation }

theorem generation_failure_semantics_witness :
    create_time_slots tplW9 [tsW9] 0 none [] =
      .error "cannot create slots: no doctor" ∧
    create_time_slots tplW9b [] 0 none [] = .ok (0, []) ∧
    stepCandidate tplW9b 1 0 tsW9 [] = (0, []) ∧
    processSlots tplW9b 1 0 [tsW9] [] = processSlots tplW9b 1 0 [] [] := by
  have h1 := generation_failure_semantics tplW9 [tsW9] 0 none [] 1 0 tsW9 []
    "slot outside template working hours"
  have h2 := generation_failure_semantics tplW9b [tsW9] 0 none [] 1 0 tsW9 []
    "slot outside template working hours"
  exact ⟨h1.1 rfl, h2.2.1 (by decide), (h2.2.2 rfl rfl rfl).1,
    (h2.2.2 rfl rfl rfl).2⟩

/-! ## Release on cancellation and the slot date (C4) -/

def pastSlotC4 : TimeSlot :=
  { id := 1, doctor := 1, date := 0, start_time := 600, duration := 15,
    slot_type := .consultation, is_available := false, is_deleted := false }

def cancelledApptC4 : Appointment :=
  { id := 1, patient := 1, doctor := 1, time_slot := 1,
    status := .cancelled_by_patient }

def dbC4 : DB :=
  { slots := [pastSlotC4], appointments := [cancelledApptC4], profiles := [] }

/-- C4 counterexample: with today = 5, cancelling the appointment on a slot
dated day 0 (long past) runs the save signal, which sets
`is_available = true` — the past slot *is* re-enabled, contradicting the
claim that past slots stay unavailable after cancellation. -/
theorem cancellation_reenables_past_slot_counterexample :
    update_timeslot_on_appointment_save cancelledApptC4 dbC4 =
      .ok { dbC4 with slots := [{ pastSlotC4 with is_available := true }] } ∧
    pastSlotC4.date < 5 := by
  constructor
  · rfl
  · decide

/-- C4 amended: the save signal sets the slot's availability to "status is a
cancellation" and the delete signal sets it to `true`, in both cases with no
check of the slot's date; past slots are re-enabled just like future ones
(only the separate expiry sweep turns them off again later). -/
theorem release_signals_ignore_slot_date (a : Appointment) (db db' : DB)
    (slot : TimeSlot)
    (hfind : db.slots.find? (fun s => s.id == a.time_slot) = some slot) :
    (update_timeslot_on_appointment_save a db = .ok db' →
      ∀ s' ∈ db'.slots, s'.id = slot.id →
        s'.is_available = decide (a.status = .cancelled_by_patient ∨
          a.status = .cancelled_by_admin))
    ∧ (update_timeslot_on_appointment_delete a db = .ok db' →
      ∀ s' ∈ db'.slots, s'.id = slot.id → s'.is_available = true) := by
  have hred1 : update_timeslot_on_appointment_save a db =
      match saveExistingTimeSlot
          { slot with is_available := decide (a.status = .cancelled_by_patient ∨
              a.status = .cancelled_by_admin) } db.slots with
      | .ok sl => .ok { db with slots := sl }
      | .error e => .error e := by
    unfold update_timeslot_on_appointment_save
    rw [hfind]
  have hred2 : update_timeslot_on_appointment_delete a db =
      match saveExistingTimeSlot { slot with is_available := true }
          db.slots with
      | .ok sl => .ok { db with slots := sl }
      | .error e => .error e := by
    unfold update_timeslot_on_appointment_delete
    rw [hfind]
  constructor
  · intro hok s' hs' hid
    rw [hred1] at hok
    rcases hsv : saveExistingTimeSlot
        { slot with is_available := decide (a.status = .cancelled_by_patient ∨
            a.status = .cancelled_by_admin) } db.slots with e | sl
    · rw [hsv] at hok; cases hok
    · rw [hsv] at hok
      simp only [Except.ok.injEq] at hok
      subst hok
      rcases saveExisting_ok_elim hsv with ⟨hsl, -, -⟩
      subst hsl
      simp only [replaceSlot, List.mem_map] at hs'
      rcases hs' with ⟨o, -, ho⟩
      by_cases hoid : o.id = slot.id
      · rw [if_pos hoid] at ho
        rw [← ho]
        rfl
      · rw [if_neg hoid] at ho
        subst ho
        exact absurd hid hoid
  · intro hok s' hs' hid
    rw [hred2] at hok
    rcases hsv : saveExistingTimeSlot { slot with is_available := true }
        db.slots with e | sl
    · rw [hsv] at hok; cases hok
    · rw [hsv] at hok
      simp only [Except.ok.injEq] at hok
      subst hok
      rcases saveExisting_ok_elim hsv with ⟨hsl, -, -⟩
      subst hsl
      simp only [replaceSlot, List.mem_map] at hs'
      rcases hs' with ⟨o, -, ho⟩
      by_cases hoid : o.id = slot.id
      · rw [if_pos hoid] at ho
        rw [← ho]
        rfl
      · rw [if_neg hoid] at ho
        subst ho
        exact absurd hid hoid

theorem release_signals_ignore_slot_date_witness :
    ({ pastSlotC4 with is_available := true } : TimeSlot).is_available =
      decide (cancelledApptC4.status = .cancelled_by_patient ∨
        cancelledApptC4.status = .cancelled_by_admin) :=
  (release_signals_ignore_slot_date cancelledApptC4 dbC4
      { dbC4 with slots := [{ pastSlotC4 with is_available := true }] }
      pastSlotC4 rfl).1 rfl
    { pastSlotC4 with is_available := true } (by decide) rfl

/-! ## Appointment.clean is dead validation (C10) -/

def slotC10a : TimeSlot :=
  { id := 1, doctor := 1, date := 0, start_time := 600, duration := 15,
    slot_type := .consultation }

def dbC10a : DB := { slots := [slotC10a], appointments := [], profiles := [] }

def slotC10b : TimeSlot :=
  { id := 1, doctor := 1, date := 3, start_time := 1180, duration := 15,
    slot_type := .consultation }

def dbC10b : DB := { slots := [slotC10b], appointments := [], profiles := [] }

/-- C10: `Appointment.clean` always raises before any booking rule is
checked, because `Doctor` defines no `is_available` attribute; and both
booking endpoints create appointments with a direct `objects.create` that
never runs it — the transactional endpoint happily books a slot dated in the
past (day 0, today 5) and the viewset endpoint books a slot starting 19:40
(outside clean's 8:00–18:00 window). -/
theorem appointment_clean_dead_validation :
    (∀ (a : Appointment) (slot : TimeSlot) (nowDate nowTime : Nat)
       (others : List Appointment),
       appointment_clean a slot nowDate nowTime others =
         .error "AttributeError: Doctor has no attribute is_available")
    ∧ ((create_appointment dbC10a (some 1) (some "+996700123456") (some "Bob")
         "").1 = .success 1 ∧ slotC10a.date < 5)
    ∧ ((viewset_create_appointment dbC10b 1 (some 1) "Ann" "+996700123456" ""
         3 none).1 = .success 1 ∧ slotC10b.start_time / 60 ≥ 18) := by
  refine ⟨fun a slot nowDate nowTime others => ?_, by decide, by decide⟩
  unfold appointment_clean
  rw [if_pos (by decide : doctorAttributeNames.contains "is_available" = false)]

/-! ## The past-date check and the lock (C5) -/

def slotC5 : TimeSlot :=
  { id := 1, doctor := 1, date := 0, start_time := 600, duration := 15,
    slot_type := .consultation }

def dbC5 : DB := { slots := [slotC5], appointments := [], profiles := [] }

/-- C5 counterexample: the transactional (locking) booking endpoint performs
no date check at all — with today = 10 it happily books the available slot
dated day 0, returning success instead of a SLOT_IN_PAST error. -/
theorem locked_booking_accepts_past_slot_counterexample :
    (create_appointment dbC5 (some 1) (some "+996700123456") (some "Bob") "").1
      = .success 1 ∧ slotC5.date < 10 := by
  constructor
  · rfl
  · decide

/-- C5 amended: only the viewset booking action checks the slot date, and it
does so without any lock or transaction: when the slot it finds is dated
before today it rejects the request and leaves the whole state unchanged.
The transactional endpoint re-verifies only availability under its lock. -/
theorem viewset_booking_rejects_past_slot (db : DB) (doctor sid : Nat)
    (pname pphone cmt : String) (today : Nat) (auth : Option Nat)
    (slot : TimeSlot)
    (hfind : db.slots.find? (fun s =>
      s.is_deleted = false && s.id == sid && s.doctor == doctor &&
        s.is_available) = some slot)
    (hpast : slot.date < today) :
    viewset_create_appointment db doctor (some sid) pname pphone cmt today auth
      = (.errPastDate, db) := by
  simp only [viewset_create_appointment, hfind]
  rw [if_pos hpast]

theorem viewset_booking_rejects_past_slot_witness :
    viewset_create_appointment dbC5 1 (some 1) "Ann" "+996700123456" "" 10 none
      = (.errPastDate, dbC5) :=
  viewset_booking_rejects_past_slot dbC5 1 1 "Ann" "+996700123456" "" 10 none
    slotC5 rfl (by decide)

/-! ## Break exclusion (C2) -/

def tplC2 : ScheduleTemplate :=
  { id := 1, doctor := some 1, day_of_week := 1, start_time := 480,
    end_time := 1020, break_start := some 730, break_end := some 750 }

def tsC2 : TemplateTimeSlot :=
  { start_time := 720, duration := 40, slot_type := .treatment }

def slotC2 : TimeSlot :=
  { id := 1, doctor := 1, template := some tplC2, date := 0, start_time := 720,
    duration := 40, slot_type := .treatment }

/-- C2 counterexample: with break 12:10–12:30 (730–750) and a treatment
definition at 12:00 (720, 40 min), the candidate interval [720, 760)
intersects the break (720 < 750 and 760 > 730), yet generation creates the
slot instead of skipping it — the claimed half-open interval test is not the
test the code performs (it only checks the start instant, and the slot also
survives `TimeSlot.clean` because its end does not lie inside the break). -/
theorem generated_slot_intersects_break_counterexample :
    create_time_slots tplC2 [tsC2] 0 (some 0) [] = .ok (1, [slotC2]) ∧
    slotC2.start_time < 750 ∧ 730 < slotC2.start_time + slotC2.duration := by
  refine ⟨by rfl, by decide, by decide⟩

/-! ## No-overlap invariant (C6) -/

def slotA6 : TimeSlot :=
  { id := 1, doctor := 1, date := 0, start_time := 720, duration := 40,
    slot_type := .treatment }

def slotB6 : TimeSlot :=
  { id := 2, doctor := 1, date := 0, start_time := 740, duration := 15,
    slot_type := .consultation }

/-- C6 counterexample: create slot A (12:00–12:40), soft-delete it, create
slot B (12:20–12:35) — valid, since the overlap check ignores deleted rows —
then run the admin bulk-restore, which is a raw update that bypasses
validation: the resulting ledger has two available, non-deleted, overlapping
slots for the same doctor and date, so "restoration" does not preserve the
no-overlap invariant. -/
theorem admin_restore_breaks_no_overlap_counterexample :
    createTimeSlot 1 0 720 40 .treatment none [] = .ok ([slotA6], slotA6) ∧
    soft_delete_slots [1] [slotA6] = (1, [{ slotA6 with is_deleted := true }]) ∧
    createTimeSlot 1 0 740 15 .consultation none
      [{ slotA6 with is_deleted := true }] =
      .ok ([{ slotA6 with is_deleted := true }, slotB6], slotB6) ∧
    NoOverlap [{ slotA6 with is_deleted := true }, slotB6] ∧
    restore_slots [1] [{ slotA6 with is_deleted := true }, slotB6] =
      (1, [slotA6, slotB6]) ∧
    ¬ NoOverlap [slotA6, slotB6] := by
  refine ⟨by rfl, by decide, by rfl, ?_, by decide, ?_⟩
  · unfold NoOverlap
    decide
  · unfold NoOverlap
    decide

theorem slotsOverlap_comm {x y : TimeSlot} (h : slotsOverlap x y) :
    slotsOverlap y x :=
  ⟨h.1.symm, h.2.1.symm, h.2.2.2, h.2.2.1⟩

theorem mem_le_foldr_max {db : List TimeSlot} {s : TimeSlot} (h : s ∈ db) :
    s.id ≤ db.foldr (fun s m => max s.id m) 0 := by
  induction db with
  | nil => cases h
  | cons x xs ih =>
    rcases List.mem_cons.mp h with rfl | hxs
    · exact Nat.le_max_left _ _
    · exact Nat.le_trans (ih hxs) (Nat.le_max_right _ _)

theorem mem_id_lt_fresh {db : List TimeSlot} {s : TimeSlot} (h : s ∈ db) :
    s.id < freshSlotId db :=
  Nat.lt_succ_of_le (mem_le_foldr_max h)

/-- A slot that survives `clean` does not truly overlap any other available,
non-deleted slot, provided no interval wraps past midnight. -/
theorem clean_ok_no_overlap_available {s s' : TimeSlot} {db : List TimeSlot}
    (h : timeSlotClean s db = .ok s') (hwt : WellTimed db)
    (hwt' : s'.start_time + s'.duration < 1440) :
    ∀ o ∈ db, o.is_deleted = false → o.is_available = true → o.id ≠ s'.id →
      ¬ slotsOverlap o s' := by
  obtain ⟨hshape, hov, -⟩ := clean_ok_elim h
  intro o ho hdel hav hid hcon
  rcases hcon with ⟨hdoc, hdate, h1, h2⟩
  have hend : s'.get_end_time = s'.start_time + s'.duration := by
    unfold TimeSlot.get_end_time
    exact Nat.mod_eq_of_lt hwt'
  have hendo : o.get_end_time = o.start_time + o.duration := by
    unfold TimeSlot.get_end_time
    exact Nat.mod_eq_of_lt (hwt o ho).1
  unfold overlapViolation at hov
  have hmem : o ∈ db.filter fun x =>
      x.is_deleted = false && x.doctor == s'.doctor && x.date == s'.date &&
        decide (x.start_time < s'.get_end_time) && x.is_available &&
        x.id != s'.id := by
    refine List.mem_filter.mpr ⟨ho, ?_⟩
    simp only [Bool.and_eq_true, beq_iff_eq, bne_iff_ne, decide_eq_true_eq]
    exact ⟨⟨⟨⟨⟨by simp [hdel], hdoc⟩, hdate⟩, by omega⟩, hav⟩, hid⟩
  have hq := List.any_eq_false.mp hov o hmem
  simp only [decide_eq_true_eq, gt_iff_lt, not_lt] at hq
  omega

theorem uniqueIds_pairwise {db : List TimeSlot} (h : UniqueIds db) :
    db.Pairwise fun a b => a.id ≠ b.id := by
  unfold UniqueIds List.Nodup at h
  rw [List.pairwise_map] at h
  exact h

/-- Creation through `clean` preserves the no-overlap invariant. -/
theorem createTimeSlot_preserves_no_overlap {doc date t dur : Nat}
    {ty : SlotType} {tplo : Option ScheduleTemplate} {db sl : List TimeSlot}
    {s' : TimeSlot} (h : createTimeSlot doc date t dur ty tplo db = .ok (sl, s'))
    (hwt : WellTimed db) (hwt' : s'.start_time + s'.duration < 1440)
    (hno : NoOverlap db) : NoOverlap sl := by
  obtain ⟨hshape, hsl, hclean, -⟩ := createTimeSlot_ok_elim h
  subst hsl
  unfold NoOverlap at hno ⊢
  refine pairwise_append_one hno ?_
  intro x hx hxa hxd hsa hsd
  have hid : x.id ≠ s'.id := by
    have h1 := mem_id_lt_fresh hx
    have h2 : s'.id = freshSlotId db := by rw [hshape]; rfl
    omega
  exact clean_ok_no_overlap_available hclean hwt hwt' x hx hxd hxa hid

/-- A validated in-place save preserves the no-overlap invariant. -/
theorem saveExisting_preserves_no_overlap {s : TimeSlot} {db sl : List TimeSlot}
    (h : saveExistingTimeSlot s db = .ok sl) (hids : UniqueIds db)
    (hwt : WellTimed db)
    (hwt' : (cleanAdjusted s).start_time + (cleanAdjusted s).duration < 1440)
    (hno : NoOverlap db) : NoOverlap sl := by
  obtain ⟨hsl, hclean, -⟩ := saveExisting_ok_elim h
  subst hsl
  have hsid : (cleanAdjusted s).id = s.id := rfl
  have hmain := clean_ok_no_overlap_available hclean hwt hwt'
  unfold NoOverlap at hno ⊢
  unfold replaceSlot
  rw [List.pairwise_map]
  have hcomb := hno.and (uniqueIds_pairwise hids)
  refine hcomb.imp_of_mem ?_
  intro a b ha hb hab
  by_cases haid : a.id = s.id <;> by_cases hbid : b.id = s.id
  · exact absurd (haid.trans hbid.symm) hab.2
  · rw [if_pos haid, if_neg hbid]
    intro h1 h2 h3 h4 hcon
    exact hmain b hb h4 h3 (by rw [hsid]; omega) (slotsOverlap_comm hcon)
  · rw [if_neg haid, if_pos hbid]
    intro h1 h2 h3 h4 hcon
    exact hmain a ha h2 h1 (by rw [hsid]; omega) hcon
  · rw [if_neg haid, if_neg hbid]
    exact hab.1

/-- Flipping availability off pointwise preserves the invariant. -/
theorem no_overlap_map_weaken (f : TimeSlot → TimeSlot)
    (hf : ∀ s, f s = s ∨ f s = markUnavailable s) (st : List TimeSlot)
    (hno : NoOverlap st) : NoOverlap (st.map f) := by
  unfold NoOverlap at hno ⊢
  rw [List.pairwise_map]
  refine hno.imp ?_
  intro a b hab
  rcases hf a with ha | ha <;> rcases hf b with hb | hb <;> rw [ha, hb]
  · exact hab
  · intro h1 h2 h3 h4
    exact absurd h3 (by simp [markUnavailable])
  · intro h1 h2 h3 h4
    exact absurd h1 (by simp [markUnavailable])
  · intro h1 h2 h3 h4
    exact absurd h1 (by simp [markUnavailable])

theorem replaceSlot_ids (i : Nat) (s' : TimeSlot) (hid : s'.id = i)
    (db : List TimeSlot) :
    (replaceSlot i s' db).map TimeSlot.id = db.map TimeSlot.id := by
  unfold replaceSlot
  rw [List.map_map]
  refine List.map_congr_left fun o _ => ?_
  by_cases h : o.id = i
  · simp [h, hid]
  · simp [h]

theorem saveExisting_unique_ids {s : TimeSlot} {db sl : List TimeSlot}
    (h : saveExistingTimeSlot s db = .ok sl) (hids : UniqueIds db) :
    UniqueIds sl := by
  obtain ⟨hsl, -, -⟩ := saveExisting_ok_elim h
  subst hsl
  unfold UniqueIds
  rw [replaceSlot_ids s.id (cleanAdjusted s) rfl db]
  exact hids

theorem saveExisting_welltimed {s : TimeSlot} {db sl : List TimeSlot}
    (h : saveExistingTimeSlot s db = .ok sl) (hwt : WellTimed db)
    (hs : s.start_time + slotDurations s.slot_type < 1440) : WellTimed sl := by
  obtain ⟨hsl, -, -⟩ := saveExisting_ok_elim h
  subst hsl
  intro x hx
  unfold replaceSlot at hx
  rcases List.mem_map.mp hx with ⟨o, ho, rfl⟩
  by_cases hid : o.id = s.id
  · rw [if_pos hid]
    exact ⟨hs, hs⟩
  · rw [if_neg hid]
    exact hwt o ho

/-- The save signal's slot write keeps the invariants. -/
theorem signal_save_slot_preservation (a : Appointment) (db db' : DB)
    (h : update_timeslot_on_appointment_save a db = .ok db')
    (hids : UniqueIds db.slots) (hwt : WellTimed db.slots)
    (hno : NoOverlap db.slots) :
    NoOverlap db'.slots ∧ UniqueIds db'.slots ∧ WellTimed db'.slots := by
  unfold update_timeslot_on_appointment_save at h
  rcases hf : db.slots.find? (fun s => s.id == a.time_slot) with _ | slot
  · rw [hf] at h
    have h2 : Except.ok (ε := String) db = .ok db' := h
    injection h2 with h3
    rw [← h3]
    exact ⟨hno, hids, hwt⟩
  · rw [hf] at h
    have hslot : slot ∈ db.slots := List.mem_of_find?_eq_some hf
    have h2 : (match saveExistingTimeSlot
        { slot with is_available := decide (a.status = .cancelled_by_patient ∨
            a.status = .cancelled_by_admin) } db.slots with
      | .ok sl => Except.ok { db with slots := sl }
      | .error e => Except.error e) = .ok db' := h
    rcases hsv : saveExistingTimeSlot
        { slot with is_available := decide (a.status = .cancelled_by_patient ∨
            a.status = .cancelled_by_admin) } db.slots with e | sl
    · rw [hsv] at h2; cases h2
    · rw [hsv] at h2
      injection h2 with h3
      rw [← h3]
      exact ⟨saveExisting_preserves_no_overlap hsv hids hwt
          ((hwt slot hslot).2) hno,
        saveExisting_unique_ids hsv hids,
        saveExisting_welltimed hsv hwt ((hwt slot hslot).2)⟩

/-- The delete signal's slot write keeps the invariants. -/
theorem signal_delete_slot_preservation (a : Appointment) (db db' : DB)
    (h : update_timeslot_on_appointment_delete a db = .ok db')
    (hids : UniqueIds db.slots) (hwt : WellTimed db.slots)
    (hno : NoOverlap db.slots) :
    NoOverlap db'.slots ∧ UniqueIds db'.slots ∧ WellTimed db'.slots := by
  unfold update_timeslot_on_appointment_delete at h
  rcases hf : db.slots.find? (fun s => s.id == a.time_slot) with _ | slot
  · rw [hf] at h
    have h2 : Except.ok (ε := String) db = .ok db' := h
    injection h2 with h3
    rw [← h3]
    exact ⟨hno, hids, hwt⟩
  · rw [hf] at h
    have hslot : slot ∈ db.slots := List.mem_of_find?_eq_some hf
    have h2 : (match saveExistingTimeSlot { slot with is_available := true }
        db.slots with
      | .ok sl => Except.ok { db with slots := sl }
      | .error e => Except.error e) = .ok db' := h
    rcases hsv : saveExistingTimeSlot { slot with is_available := true }
        db.slots with e | sl
    · rw [hsv] at h2; cases h2
    · rw [hsv] at h2
      injection h2 with h3
      rw [← h3]
      exact ⟨saveExisting_preserves_no_overlap hsv hids hwt
          ((hwt slot hslot).2) hno,
        saveExisting_unique_ids hsv hids,
        saveExisting_welltimed hsv hwt ((hwt slot hslot).2)⟩

/-- The transactional booking endpoint only flips availability through
validated saves, so it preserves the no-overlap invariant. -/
theorem create_appointment_preserves_no_overlap (db : DB) (tsid : Option Nat)
    (pho nam : Option String) (cmt : String) (hids : UniqueIds db.slots)
    (hwt : WellTimed db.slots) (hno : NoOverlap db.slots) :
    NoOverlap (create_appointment db tsid pho nam cmt).2.slots := by
  rcases tsid with _ | sid <;> rcases pho with _ | phone <;>
    rcases nam with _ | name
  · exact hno
  · exact hno
  · exact hno
  · exact hno
  · exact hno
  · exact hno
  · exact hno
  · rcases hf : db.slots.find? (fun s => s.is_deleted = false && s.id == sid)
      with _ | slot
    · simp only [create_appointment, hf]
      exact hno
    · have hslot : slot ∈ db.slots := List.mem_of_find?_eq_some hf
      simp only [create_appointment, hf]
      by_cases hav : slot.is_available = false
      · rw [if_pos hav]
        exact hno
      · rw [if_neg hav]
        rcases hfa : db.appointments.find? (fun x => x.time_slot == slot.id)
          with _ | a1
        · rcases hsig : update_timeslot_on_appointment_save
              (bookNewAppt db slot phone name cmt)
              (bookDb1 db slot phone name cmt) with e | db2
          · simp only [bookClaimSlot, hfa, hsig]
            exact hno
          · obtain ⟨hno2, hids2, hwt2⟩ :=
              signal_save_slot_preservation _ _ _ hsig hids hwt hno
            rcases hf2 : db2.slots.find? (fun s => s.id == slot.id)
              with _ | slotNow
            · simp only [bookClaimSlot, hfa, hsig, bookFinalizeSlot, hf2]
              exact hno
            · have hsn : slotNow ∈ db2.slots := List.mem_of_find?_eq_some hf2
              rcases hsv : saveExistingTimeSlot
                  { slotNow with is_available := false } db2.slots with e2 | sl
              · simp only [bookClaimSlot, hfa, hsig, bookFinalizeSlot, hf2, hsv]
                exact hno
              · simp only [bookClaimSlot, hfa, hsig, bookFinalizeSlot, hf2, hsv]
                exact saveExisting_preserves_no_overlap hsv hids2 hwt2
                  ((hwt2 slotNow hsn).2) hno2
        · rcases hsv : saveExistingTimeSlot { slot with is_available := false }
              db.slots with e | sl
          · simp only [bookClaimSlot, hfa, hsv]
            exact hno
          · simp only [bookClaimSlot, hfa, hsv]
            exact saveExisting_preserves_no_overlap hsv hids hwt
              ((hwt slot hslot).2) hno

/-- C6 amended: the no-overlap invariant (on true, non-wrapping intervals) is
preserved by every slot write that goes through validation — creation,
validated in-place saves (which cover regeneration's restore), the expiry
sweep's availability flips, the transactional booking endpoint, and both
appointment signals — while the administrative bulk restore (see the
counterexample) bypasses validation and can break it. -/
theorem no_overlap_preserved_by_validated_writes (doc date t dur : Nat)
    (ty : SlotType) (tplo : Option ScheduleTemplate) (db0 sl : List TimeSlot)
    (s' s : TimeSlot) (nowDate nowTime : Nat) (a : Appointment) (dbb db' : DB)
    (tsid : Option Nat) (pho nam : Option String) (cmt : String) :
    (createTimeSlot doc date t dur ty tplo db0 = .ok (sl, s') →
      WellTimed db0 → s'.start_time + s'.duration < 1440 → NoOverlap db0 →
      NoOverlap sl)
    ∧ (saveExistingTimeSlot s db0 = .ok sl → UniqueIds db0 → WellTimed db0 →
      (cleanAdjusted s).start_time + (cleanAdjusted s).duration < 1440 →
      NoOverlap db0 → NoOverlap sl)
    ∧ (NoOverlap db0 →
      NoOverlap (update_time_slots_availability nowDate nowTime db0).2)
    ∧ (UniqueIds dbb.slots → WellTimed dbb.slots → NoOverlap dbb.slots →
      NoOverlap (create_appointment dbb tsid pho nam cmt).2.slots)
    ∧ (update_timeslot_on_appointment_save a dbb = .ok db' →
      UniqueIds dbb.slots → WellTimed dbb.slots → NoOverlap dbb.slots →
      NoOverlap db'.slots)
    ∧ (update_timeslot_on_appointment_delete a dbb = .ok db' →
      UniqueIds dbb.slots → WellTimed dbb.slots → NoOverlap dbb.slots →
      NoOverlap db'.slots) := by
  refine ⟨fun h hwt hwt' hno =>
      createTimeSlot_preserves_no_overlap h hwt hwt' hno,
    fun h hids hwt hwt' hno =>
      saveExisting_preserves_no_overlap h hids hwt hwt' hno,
    fun hno => ?_,
    fun hids hwt hno =>
      create_appointment_preserves_no_overlap dbb tsid pho nam cmt hids hwt hno,
    fun h hids hwt hno => (signal_save_slot_preservation a dbb db' h hids hwt hno).1,
    fun h hids hwt hno =>
      (signal_delete_slot_preservation a dbb db' h hids hwt hno).1⟩
  have h1 := no_overlap_map_weaken
    (fun s => if sweepTodayCond nowDate nowTime s then markUnavailable s else s)
    (fun s => by
      by_cases hc : sweepTodayCond nowDate nowTime s = true
      · right; exact if_pos hc
      · left; exact if_neg hc) db0 hno
  have h2 := no_overlap_map_weaken
    (fun s => if sweepPastCond nowDate s then markUnavailable s else s)
    (fun s => by
      by_cases hc : sweepPastCond nowDate s = true
      · right; exact if_pos hc
      · left; exact if_neg hc) _ h1
  exact h2

def slotW6 : TimeSlot :=
  { id := 1, doctor := 1, date := 0, start_time := 600, duration := 15,
    slot_type := .consultation, is_available := false }

def apptW6 : Appointment :=
  { id := 1, patient := 1, doctor := 1, time_slot := 1,
    status := .cancelled_by_patient }

def dbW6 : DB :=
  { slots := [slotW6], appointments := [apptW6], profiles := [] }

theorem no_overlap_preserved_by_validated_writes_witness :
    NoOverlap [slotA6] ∧
    NoOverlap (update_time_slots_availability 5 0 [slotA6]).2 ∧
    NoOverlap (create_appointment dbW6 (some 1) (some "+996700123456")
      (some "Bob") "").2.slots ∧
    NoOverlap ({ dbW6 with
      slots := [{ slotW6 with is_available := true }] } : DB).slots := by
  have h := no_overlap_preserved_by_validated_writes 1 0 720 40 .treatment none
    [] [slotA6] slotA6 slotA6 5 0 apptW6 dbW6
    { dbW6 with slots := [{ slotW6 with is_available := true }] }
    (some 1) (some "+996700123456") (some "Bob") ""
  have hwt0 : WellTimed ([] : List TimeSlot) := fun s hs => absurd hs (by simp)
  have hno0 : NoOverlap ([] : List TimeSlot) := List.Pairwise.nil
  have hcre : NoOverlap [slotA6] :=
    h.1 (by rfl) hwt0 (by decide) hno0
  have hids6 : UniqueIds dbW6.slots := by
    simp [UniqueIds, dbW6]
  have hwt6 : WellTimed dbW6.slots := by
    intro x hx
    simp only [dbW6] at hx
    rcases List.mem_singleton.mp hx with rfl
    exact ⟨by decide, by decide⟩
  have hno6 : NoOverlap dbW6.slots := by
    simp [NoOverlap, dbW6]
  have h2 := no_overlap_preserved_by_validated_writes 1 0 720 40 .treatment
    none [slotA6] [slotA6] slotA6 slotA6 5 0 apptW6 dbW6
    { dbW6 with slots := [{ slotW6 with is_available := true }] }
    (some 1) (some "+996700123456") (some "Bob") ""
  refine ⟨hcre, h2.2.2.1 hcre, h.2.2.2.1 hids6 hwt6 hno6, ?_⟩
  exact (h.2.2.2.2.1 (by rfl) hids6 hwt6 hno6)

/-! ## Machinery for the generation run (C2 amended, C3, C8) -/

/-- The natural key a candidate (date, definition) would occupy. -/
def candKey (doc : Nat) (c : Nat × TemplateTimeSlot) : Nat × Nat × Nat :=
  (doc, c.1, c.2.start_time)

/-- The row stored when a candidate is created (the raw record after clean's
duration overwrite). -/
def genSlotRecord (tpl : ScheduleTemplate) (doc d : Nat)
    (ts : TemplateTimeSlot) (st : List TimeSlot) : TimeSlot :=
  cleanAdjusted
    (newSlotRecord doc d ts.start_time ts.duration ts.slot_type (some tpl) st)

theorem head?_mem {α : Type _} {l : List α} {a : α} (h : l.head? = some a) :
    a ∈ l := by
  rcases List.head?_eq_some_iff.mp h with ⟨t, rfl⟩
  exact List.mem_cons_self a t

theorem eq_of_mem_same_id {st : List TimeSlot} {a b : TimeSlot}
    (hids : UniqueIds st) (ha : a ∈ st) (hb : b ∈ st) (h : a.id = b.id) :
    a = b :=
  List.inj_on_of_nodup_map hids ha hb h

theorem eq_of_mem_same_key {st : List TimeSlot} {a b : TimeSlot}
    (hkeys : UniqueKeys st) (ha : a ∈ st) (hb : b ∈ st)
    (h : slotKey a = slotKey b) : a = b :=
  List.inj_on_of_nodup_map hkeys ha hb h

theorem matchesCand_key {doc d : Nat} {ts : TemplateTimeSlot} {s : TimeSlot}
    (h : matchesCand doc d ts s = true) : slotKey s = (doc, d, ts.start_time) := by
  simp only [matchesCand, Bool.and_eq_true, beq_iff_eq] at h
  unfold slotKey
  rw [h.1.1.1, h.1.1.2, h.1.2]

theorem processCands_append (tpl : ScheduleTemplate) (doc : Nat)
    (cs1 cs2 : List (Nat × TemplateTimeSlot)) (st : List TimeSlot) :
    processCands tpl doc (cs1 ++ cs2) st =
      ((processCands tpl doc cs1 st).1 +
        (processCands tpl doc cs2 (processCands tpl doc cs1 st).2).1,
       (processCands tpl doc cs2 (processCands tpl doc cs1 st).2).2) := by
  induction cs1 generalizing st with
  | nil => simp [processCands]
  | cons c cs ih =>
    have hcons : ∀ (cs' : List (Nat × TemplateTimeSlot)) (st0 : List TimeSlot),
        processCands tpl doc (c :: cs') st0 =
          ((stepCandidate tpl doc c.1 c.2 st0).1 +
            (processCands tpl doc cs'
              (stepCandidate tpl doc c.1 c.2 st0).2).1,
           (processCands tpl doc cs'
             (stepCandidate tpl doc c.1 c.2 st0).2).2) := fun _ _ => rfl
    rw [List.cons_append, hcons (cs ++ cs2) st, hcons cs st, ih]
    simp only [Prod.mk.injEq]
    exact ⟨by omega, trivial⟩

theorem processSlots_eq_cands (tpl : ScheduleTemplate) (doc d : Nat)
    (tss : List TemplateTimeSlot) (st : List TimeSlot) :
    processSlots tpl doc d tss st =
      processCands tpl doc (tss.map fun ts => (d, ts)) st := by
  induction tss generalizing st with
  | nil => rfl
  | cons ts rest ih =>
    show ((stepCandidate tpl doc d ts st).1 +
        (processSlots tpl doc d rest (stepCandidate tpl doc d ts st).2).1,
      (processSlots tpl doc d rest (stepCandidate tpl doc d ts st).2).2) = _
    rw [ih]
    rfl

theorem processDates_eq_cands (tpl : ScheduleTemplate) (doc : Nat)
    (tss : List TemplateTimeSlot) (ds : List Nat) (st : List TimeSlot) :
    processDates tpl doc tss ds st =
      processCands tpl doc (candsOf tpl.day_of_week tss ds) st := by
  induction ds generalizing st with
  | nil => rfl
  | cons d ds ih =>
    show (let r1 := if isoweekday d = tpl.day_of_week then
            processSlots tpl doc d tss st else (0, st)
          let r2 := processDates tpl doc tss ds r1.2
          (r1.1 + r2.1, r2.2)) = _
    unfold candsOf
    rw [processCands_append]
    by_cases hw : isoweekday d = tpl.day_of_week
    · simp only [hw, if_true, ite_true]
      rw [processSlots_eq_cands, ih]
    · simp only [hw, if_false, ite_false]
      show ((0 : Nat) + (processDates tpl doc tss ds st).1,
        (processDates tpl doc tss ds st).2) = _
      rw [ih]
      simp [processCands]

theorem candsOf_mem {dow : Nat} {tss : List TemplateTimeSlot} {ds : List Nat}
    {c : Nat × TemplateTimeSlot} (h : c ∈ candsOf dow tss ds) :
    c.1 ∈ ds ∧ c.2 ∈ tss := by
  induction ds with
  | nil => cases h
  | cons d ds ih =>
    unfold candsOf at h
    rcases List.mem_append.mp h with h1 | h2
    · by_cases hw : isoweekday d = dow
      · rw [if_pos hw] at h1
        rcases List.mem_map.mp h1 with ⟨ts, hts, rfl⟩
        exact ⟨List.mem_cons_self _ _, hts⟩
      · rw [if_neg hw] at h1
        cases h1
    · have := ih h2
      exact ⟨List.mem_cons_of_mem _ this.1, this.2⟩

theorem candsOf_pairwise (doc dow : Nat) (tss : List TemplateTimeSlot)
    (ds : List Nat) (hds : ds.Nodup)
    (hstarts : tss.Pairwise fun t1 t2 => t1.start_time ≠ t2.start_time) :
    (candsOf dow tss ds).Pairwise fun c1 c2 =>
      candKey doc c1 ≠ candKey doc c2 := by
  induction ds with
  | nil => exact List.Pairwise.nil
  | cons d ds ih =>
    have hd : d ∉ ds := (List.nodup_cons.mp hds).1
    have hds' : ds.Nodup := (List.nodup_cons.mp hds).2
    unfold candsOf
    rw [List.pairwise_append]
    refine ⟨?_, ih hds', ?_⟩
    · by_cases hw : isoweekday d = dow
      · rw [if_pos hw, List.pairwise_map]
        refine hstarts.imp ?_
        intro t1 t2 hne hcon
        apply hne
        have := congrArg (fun k : Nat × Nat × Nat => k.2.2) hcon
        simpa [candKey] using this
      · rw [if_neg hw]
        exact List.Pairwise.nil
    · intro c1 h1 c2 h2 hcon
      have hc2 := candsOf_mem h2
      have hc1d : c1.1 = d := by
        by_cases hw : isoweekday d = dow
        · rw [if_pos hw] at h1
          rcases List.mem_map.mp h1 with ⟨ts, -, rfl⟩
          rfl
        · rw [if_neg hw] at h1
          cases h1
      apply hd
      have hdates := congrArg (fun k : Nat × Nat × Nat => k.2.1) hcon
      simp only [candKey] at hdates
      rw [← hc1d]
      rw [hdates]
      exact hc2.1

/-- Exhaustive case analysis of one generation candidate. -/
theorem stepCandidate_cases (tpl : ScheduleTemplate) (doc d : Nat)
    (ts : TemplateTimeSlot) (st : List TimeSlot) :
    (is_break_time tpl ts.start_time = true ∧
      stepCandidate tpl doc d ts st = (0, st)) ∨
    (∃ s, is_break_time tpl ts.start_time = false ∧
      (st.filter (matchesCand doc d ts)).head? = some s ∧
      s.is_deleted = false ∧ stepCandidate tpl doc d ts st = (0, st)) ∨
    (∃ s e, is_break_time tpl ts.start_time = false ∧
      (st.filter (matchesCand doc d ts)).head? = some s ∧
      s.is_deleted = true ∧
      saveExistingTimeSlot (restoreRecord s) st = .error e ∧
      stepCandidate tpl doc d ts st = (0, st)) ∨
    (∃ e, is_break_time tpl ts.start_time = false ∧
      (st.filter (matchesCand doc d ts)).head? = none ∧
      createTimeSlot doc d ts.start_time ts.duration ts.slot_type (some tpl) st
        = .error e ∧
      stepCandidate tpl doc d ts st = (0, st)) ∨
    (∃ s, is_break_time tpl ts.start_time = false ∧
      (st.filter (matchesCand doc d ts)).head? = some s ∧
      s.is_deleted = true ∧
      saveExistingTimeSlot (restoreRecord s) st =
        .ok (replaceSlot s.id (cleanAdjusted (restoreRecord s)) st) ∧
      stepCandidate tpl doc d ts st =
        (1, replaceSlot s.id (cleanAdjusted (restoreRecord s)) st)) ∨
    (is_break_time tpl ts.start_time = false ∧
      (st.filter (matchesCand doc d ts)).head? = none ∧
      timeSlotClean (newSlotRecord doc d ts.start_time ts.duration ts.slot_type
          (some tpl) st) st = .ok (genSlotRecord tpl doc d ts st) ∧
      validateUniqueOk (genSlotRecord tpl doc d ts st) st = true ∧
      stepCandidate tpl doc d ts st = (1, st ++ [genSlotRecord tpl doc d ts st])) := by
  by_cases hbr : is_break_time tpl ts.start_time = true
  · exact Or.inl ⟨hbr, by unfold stepCandidate; rw [if_pos hbr]⟩
  · have hbrf : is_break_time tpl ts.start_time = false := by simpa using hbr
    have hstep0 : stepCandidate tpl doc d ts st =
        match (st.filter (matchesCand doc d ts)).head? with
        | some existing =>
          if existing.is_deleted then
            match saveExistingTimeSlot (restoreRecord existing) st with
            | .ok st' => (1, st')
            | .error _ => (0, st)
          else (0, st)
        | none =>
          match createTimeSlot doc d ts.start_time ts.duration ts.slot_type
              (some tpl) st with
          | .ok (st', _) => (1, st')
          | .error _ => (0, st) := by
      unfold stepCandidate
      rw [if_neg hbr]
    rcases hf : (st.filter (matchesCand doc d ts)).head? with _ | s
    · rw [hf] at hstep0
      have hstep1 : stepCandidate tpl doc d ts st =
          match createTimeSlot doc d ts.start_time ts.duration ts.slot_type
              (some tpl) st with
          | .ok (st', _) => (1, st')
          | .error _ => (0, st) := hstep0
      rcases hcr : createTimeSlot doc d ts.start_time ts.duration ts.slot_type
          (some tpl) st with e | p
      · rw [hcr] at hstep1
        exact Or.inr (Or.inr (Or.inr (Or.inl ⟨e, hbrf, rfl, rfl, hstep1⟩)))
      · obtain ⟨sl, s'⟩ := p
        obtain ⟨hsh, hsl, hcl, hun⟩ := createTimeSlot_ok_elim hcr
        rw [hcr] at hstep1
        subst hsh
        subst hsl
        exact Or.inr (Or.inr (Or.inr (Or.inr (Or.inr
          ⟨hbrf, rfl, hcl, hun, hstep1⟩))))
    · rw [hf] at hstep0
      have hstepA : stepCandidate tpl doc d ts st =
          if s.is_deleted = true then
            match saveExistingTimeSlot (restoreRecord s) st with
            | .ok st' => (1, st')
            | .error _ => (0, st)
          else (0, st) := hstep0
      by_cases hdel : s.is_deleted = true
      · have hstep1 : stepCandidate tpl doc d ts st =
            match saveExistingTimeSlot (restoreRecord s) st with
            | .ok st' => (1, st')
            | .error _ => (0, st) := by
          rw [hstepA, if_pos hdel]
        rcases hsv : saveExistingTimeSlot (restoreRecord s) st with e | sl
        · rw [hsv] at hstep1
          exact Or.inr (Or.inr (Or.inl ⟨s, e, hbrf, rfl, hdel, hsv, hstep1⟩))
        · obtain ⟨hsl, -, -⟩ := saveExisting_ok_elim hsv
          rw [hsv] at hstep1
          have hid : (restoreRecord s).id = s.id := rfl
          rw [hid] at hsl
          subst hsl
          exact Or.inr (Or.inr (Or.inr (Or.inr (Or.inl
            ⟨s, hbrf, rfl, hdel, hsv, hstep1⟩))))
      · have hdelf : s.is_deleted = false := by simpa using hdel
        have hstep1 : stepCandidate tpl doc d ts st = (0, st) := by
          rw [hstepA, if_neg hdel]
        exact Or.inr (Or.inl ⟨s, hbrf, rfl, hdelf, hstep1⟩)

/-- Monotonicity of a generation run over the ledger: live rows survive
untouched, and every row keeps its primary key and natural key. -/
def SlotsGrow (st st' : List TimeSlot) : Prop :=
  (∀ x ∈ st, x.is_deleted = false → x ∈ st') ∧
  (∀ x ∈ st, ∃ x' ∈ st', x'.id = x.id ∧ slotKey x' = slotKey x)

theorem slotsGrow_refl (st : List TimeSlot) : SlotsGrow st st :=
  ⟨fun x hx _ => hx, fun x hx => ⟨x, hx, rfl, rfl⟩⟩

theorem slotsGrow_trans {a b c : List TimeSlot} (h1 : SlotsGrow a b)
    (h2 : SlotsGrow b c) : SlotsGrow a c := by
  refine ⟨fun x hx hd => h2.1 x (h1.1 x hx hd) hd, fun x hx => ?_⟩
  rcases h1.2 x hx with ⟨y, hy, hyid, hykey⟩
  rcases h2.2 y hy with ⟨z, hz, hzid, hzkey⟩
  exact ⟨z, hz, hzid.trans hyid, hzkey.trans hykey⟩

theorem mem_of_find_head {doc d : Nat} {ts : TemplateTimeSlot}
    {st : List TimeSlot} {s : TimeSlot}
    (h : (st.filter (matchesCand doc d ts)).head? = some s) :
    s ∈ st ∧ matchesCand doc d ts s = true := by
  have hm := head?_mem h
  exact ⟨List.mem_of_mem_filter hm, List.of_mem_filter hm⟩

theorem uniqueIds_cons {x : TimeSlot} {xs : List TimeSlot}
    (h : UniqueIds (x :: xs)) :
    x.id ∉ xs.map TimeSlot.id ∧ UniqueIds xs := by
  unfold UniqueIds at h
  rw [List.map_cons, List.nodup_cons] at h
  exact h

theorem uniqueKeys_cons {x : TimeSlot} {xs : List TimeSlot}
    (h : UniqueKeys (x :: xs)) :
    slotKey x ∉ xs.map slotKey ∧ UniqueKeys xs := by
  unfold UniqueKeys at h
  rw [List.map_cons, List.nodup_cons] at h
  exact h

theorem genSlotRecord_id (tpl : ScheduleTemplate) (doc d : Nat)
    (ts : TemplateTimeSlot) (st : List TimeSlot) :
    (genSlotRecord tpl doc d ts st).id = freshSlotId st := rfl

theorem genSlotRecord_key (tpl : ScheduleTemplate) (doc d : Nat)
    (ts : TemplateTimeSlot) (st : List TimeSlot) :
    slotKey (genSlotRecord tpl doc d ts st) = (doc, d, ts.start_time) := rfl

theorem restore_key (s : TimeSlot) :
    slotKey (cleanAdjusted (restoreRecord s)) = slotKey s := rfl

theorem step_uniqueIds (tpl : ScheduleTemplate) (doc d : Nat)
    (ts : TemplateTimeSlot) (st : List TimeSlot) (h : UniqueIds st) :
    UniqueIds (stepCandidate tpl doc d ts st).2 := by
  rcases stepCandidate_cases tpl doc d ts st with
    ⟨-, hstep⟩ | ⟨s, -, -, -, hstep⟩ | ⟨s, e, -, -, -, -, hstep⟩ |
    ⟨e, -, -, -, hstep⟩ | ⟨s, -, -, -, -, hstep⟩ | ⟨-, -, -, -, hstep⟩
  · rw [hstep]; exact h
  · rw [hstep]; exact h
  · rw [hstep]; exact h
  · rw [hstep]; exact h
  · rw [hstep]
    unfold UniqueIds
    rw [replaceSlot_ids s.id (cleanAdjusted (restoreRecord s)) rfl st]
    exact h
  · rw [hstep]
    unfold UniqueIds
    rw [List.map_append]
    show List.Pairwise _ _
    refine pairwise_append_one (l := st.map TimeSlot.id) h ?_
    intro i hi
    rcases List.mem_map.mp hi with ⟨x, hx, rfl⟩
    show x.id ≠ (genSlotRecord tpl doc d ts st).id
    intro hcon
    have := mem_id_lt_fresh hx
    rw [genSlotRecord_id] at hcon
    omega

theorem step_uniqueKeys (tpl : ScheduleTemplate) (doc d : Nat)
    (ts : TemplateTimeSlot) (st : List TimeSlot) (hids : UniqueIds st)
    (h : UniqueKeys st) : UniqueKeys (stepCandidate tpl doc d ts st).2 := by
  rcases stepCandidate_cases tpl doc d ts st with
    ⟨-, hstep⟩ | ⟨s, -, -, -, hstep⟩ | ⟨s, e, -, -, -, -, hstep⟩ |
    ⟨e, -, -, -, hstep⟩ | ⟨s, -, hfind, -, -, hstep⟩ | ⟨-, -, -, hun, hstep⟩
  · rw [hstep]; exact h
  · rw [hstep]; exact h
  · rw [hstep]; exact h
  · rw [hstep]; exact h
  · rw [hstep]
    obtain ⟨hmem, -⟩ := mem_of_find_head hfind
    unfold UniqueKeys
    have hcg : ∀ o ∈ st,
        slotKey (if o.id = s.id then cleanAdjusted (restoreRecord s) else o) =
          slotKey o := by
      intro o ho
      by_cases hoid : o.id = s.id
      · rw [if_pos hoid]
        rw [restore_key]
        rw [eq_of_mem_same_id hids ho hmem hoid]
      · rw [if_neg hoid]
    unfold replaceSlot
    rw [List.map_map]
    have heq : List.map (slotKey ∘ fun o =>
        if o.id = s.id then cleanAdjusted (restoreRecord s) else o) st =
        List.map slotKey st :=
      List.map_congr_left fun o ho => hcg o ho
    rw [heq]
    exact h
  · rw [hstep]
    unfold UniqueKeys
    rw [List.map_append]
    show List.Pairwise _ _
    refine pairwise_append_one (l := st.map slotKey) h ?_
    intro kk hk
    rcases List.mem_map.mp hk with ⟨x, hx, rfl⟩
    show slotKey x ≠ slotKey (genSlotRecord tpl doc d ts st)
    intro hcon
    have hany : (st.any fun o =>
        o.id != (genSlotRecord tpl doc d ts st).id &&
        o.doctor == (genSlotRecord tpl doc d ts st).doctor &&
        o.date == (genSlotRecord tpl doc d ts st).date &&
        o.start_time == (genSlotRecord tpl doc d ts st).start_time) = false := by
      cases hb : st.any fun o =>
          o.id != (genSlotRecord tpl doc d ts st).id &&
          o.doctor == (genSlotRecord tpl doc d ts st).doctor &&
          o.date == (genSlotRecord tpl doc d ts st).date &&
          o.start_time == (genSlotRecord tpl doc d ts st).start_time
      · rfl
      · unfold validateUniqueOk at hun
        rw [hb] at hun
        cases hun
    have hno := List.any_eq_false.mp hany x hx
    apply hno
    have hd1 : x.doctor = (genSlotRecord tpl doc d ts st).doctor :=
      congrArg (fun k : Nat × Nat × Nat => k.1) hcon
    have hd2 : x.date = (genSlotRecord tpl doc d ts st).date :=
      congrArg (fun k : Nat × Nat × Nat => k.2.1) hcon
    have hd3 : x.start_time = (genSlotRecord tpl doc d ts st).start_time :=
      congrArg (fun k : Nat × Nat × Nat => k.2.2) hcon
    have hxid : x.id ≠ (genSlotRecord tpl doc d ts st).id := by
      have := mem_id_lt_fresh hx
      rw [genSlotRecord_id]
      omega
    simp [hd1, hd2, hd3, hxid]

theorem step_grows (tpl : ScheduleTemplate) (doc d : Nat)
    (ts : TemplateTimeSlot) (st : List TimeSlot) (hids : UniqueIds st) :
    SlotsGrow st (stepCandidate tpl doc d ts st).2 := by
  rcases stepCandidate_cases tpl doc d ts st with
    ⟨-, hstep⟩ | ⟨s, -, -, -, hstep⟩ | ⟨s, e, -, -, -, -, hstep⟩ |
    ⟨e, -, -, -, hstep⟩ | ⟨s, -, hfind, hdel, -, hstep⟩ | ⟨-, -, -, -, hstep⟩
  · rw [hstep]; exact slotsGrow_refl st
  · rw [hstep]; exact slotsGrow_refl st
  · rw [hstep]; exact slotsGrow_refl st
  · rw [hstep]; exact slotsGrow_refl st
  · rw [hstep]
    obtain ⟨hmem, -⟩ := mem_of_find_head hfind
    refine ⟨?_, ?_⟩
    · intro x hx hxdel
      have hxid : x.id ≠ s.id := by
        intro hc
        have hxs : x = s := eq_of_mem_same_id hids hx hmem hc
        rw [hxs, hdel] at hxdel
        cases hxdel
      unfold replaceSlot
      refine List.mem_map.mpr ⟨x, hx, ?_⟩
      rw [if_neg hxid]
    · intro x hx
      by_cases hxid : x.id = s.id
      · have hxs : x = s := eq_of_mem_same_id hids hx hmem hxid
        refine ⟨cleanAdjusted (restoreRecord s), ?_, ?_, ?_⟩
        · unfold replaceSlot
          exact List.mem_map.mpr ⟨s, hmem, by rw [if_pos rfl]⟩
        · rw [hxs]
          rfl
        · rw [hxs]
          exact restore_key s
      · refine ⟨x, ?_, rfl, rfl⟩
        unfold replaceSlot
        exact List.mem_map.mpr ⟨x, hx, by rw [if_neg hxid]⟩
  · rw [hstep]
    exact ⟨fun x hx _ => List.mem_append_left _ hx,
      fun x hx => ⟨x, List.mem_append_left _ hx, rfl, rfl⟩⟩

/-- One pass over candidates preserves primary-key uniqueness, the
`unique_doctor_timeslot` invariant, and only grows the ledger. -/
theorem processCands_closure (tpl : ScheduleTemplate) (doc : Nat)
    (cs : List (Nat × TemplateTimeSlot)) :
    ∀ st : List TimeSlot, UniqueIds st → UniqueKeys st →
      UniqueIds (processCands tpl doc cs st).2 ∧
      UniqueKeys (processCands tpl doc cs st).2 ∧
      SlotsGrow st (processCands tpl doc cs st).2 := by
  induction cs with
  | nil => exact fun st hids hkeys => ⟨hids, hkeys, slotsGrow_refl st⟩
  | cons c cs ih =>
    intro st hids hkeys
    have hred : (processCands tpl doc (c :: cs) st).2 =
        (processCands tpl doc cs (stepCandidate tpl doc c.1 c.2 st).2).2 := rfl
    rw [hred]
    have h1 := step_uniqueIds tpl doc c.1 c.2 st hids
    have h2 := step_uniqueKeys tpl doc c.1 c.2 st hids hkeys
    have h3 := step_grows tpl doc c.1 c.2 st hids
    obtain ⟨a, b, g⟩ := ih _ h1 h2
    exact ⟨a, b, slotsGrow_trans h3 g⟩

/-- In a ledger with unique ids and unique natural keys, a filter that only
accepts rows of one natural key and accepts some member is that singleton. -/
theorem filter_singleton_of_unique {st : List TimeSlot} {s : TimeSlot}
    {p : TimeSlot → Bool}
    (hids : UniqueIds st) (hkeys : UniqueKeys st) (hmem : s ∈ st)
    (hp : p s = true)
    (hkey : ∀ x ∈ st, p x = true → slotKey x = slotKey s) :
    st.filter p = [s] := by
  induction st with
  | nil => cases hmem
  | cons y ys ih =>
    obtain ⟨hidy, hids'⟩ := uniqueIds_cons hids
    obtain ⟨hky, hkeys'⟩ := uniqueKeys_cons hkeys
    rcases List.mem_cons.mp hmem with rfl | hmem'
    · have hnil : ys.filter p = [] := by
        rw [List.filter_eq_nil_iff]
        intro x hx hpx
        apply hky
        have hxk := hkey x (List.mem_cons_of_mem _ hx) hpx
        rw [← hxk]
        exact List.mem_map_of_mem slotKey hx
      simp only [List.filter_cons, hp, if_true, hnil]
    · have hpy : p y = false := by
        cases hpy : p y
        · rfl
        · exfalso
          apply hky
          have hyk := hkey y (List.mem_cons_self _ _) hpy
          rw [hyk]
          exact List.mem_map_of_mem slotKey hmem'
      simp only [List.filter_cons, hpy, Bool.false_eq_true, if_false]
      exact ih hids' hkeys' hmem'
        fun x hx hpx => hkey x (List.mem_cons_of_mem _ hx) hpx

theorem filter_map_eq {p : TimeSlot → Bool} {f : TimeSlot → TimeSlot}
    {st : List TimeSlot}
    (h : ∀ o ∈ st, p (f o) = p o ∧ (p o = true → f o = o)) :
    (st.map f).filter p = st.filter p := by
  induction st with
  | nil => rfl
  | cons y ys ih =>
    obtain ⟨h1, h2⟩ := h y (List.mem_cons_self _ _)
    rw [List.map_cons]
    cases hpy : p y with
    | true =>
      rw [h2 hpy]
      simp only [List.filter_cons, hpy, if_true]
      rw [ih fun o ho => h o (List.mem_cons_of_mem _ ho)]
    | false =>
      have hfy : p (f y) = false := by rw [h1, hpy]
      simp only [List.filter_cons, hfy, hpy, Bool.false_eq_true, if_false]
      exact ih fun o ho => h o (List.mem_cons_of_mem _ ho)

theorem matchesCand_restore (doc d : Nat) (ts : TemplateTimeSlot)
    (s : TimeSlot) :
    matchesCand doc d ts (cleanAdjusted (restoreRecord s)) =
      matchesCand doc d ts s := rfl

/-- A generation step for one candidate leaves the lookup slice of every
other (date, start_time) candidate untouched. -/
theorem step_other_filter (tpl : ScheduleTemplate) (doc d' d : Nat)
    (ts' ts : TemplateTimeSlot) (st : List TimeSlot) (hids : UniqueIds st)
    (hne : ¬(d' = d ∧ ts'.start_time = ts.start_time)) :
    (stepCandidate tpl doc d' ts' st).2.filter (matchesCand doc d ts) =
      st.filter (matchesCand doc d ts) := by
  rcases stepCandidate_cases tpl doc d' ts' st with
    ⟨-, hstep⟩ | ⟨s, -, -, -, hstep⟩ | ⟨s, e, -, -, -, -, hstep⟩ |
    ⟨e, -, -, -, hstep⟩ | ⟨s, -, hfind, -, -, hstep⟩ | ⟨-, -, -, -, hstep⟩
  · rw [hstep]
  · rw [hstep]
  · rw [hstep]
  · rw [hstep]
  · rw [hstep]
    obtain ⟨hmem, hmatch'⟩ := mem_of_find_head hfind
    unfold replaceSlot
    apply filter_map_eq
    intro o ho
    by_cases hoid : o.id = s.id
    · have hos : o = s := eq_of_mem_same_id hids ho hmem hoid
      subst hos
      have hps : matchesCand doc d ts o = false := by
        cases hps : matchesCand doc d ts o
        · rfl
        · exfalso
          have hk := (matchesCand_key hps).symm.trans (matchesCand_key hmatch')
          exact hne ⟨(congrArg (fun k : Nat × Nat × Nat => k.2.1) hk).symm,
            (congrArg (fun k : Nat × Nat × Nat => k.2.2) hk).symm⟩
      refine ⟨?_, ?_⟩
      · rw [if_pos hoid]
        exact matchesCand_restore doc d ts o
      · intro hcon
        rw [hps] at hcon
        cases hcon
    · refine ⟨?_, ?_⟩
      · rw [if_neg hoid]
      · intro hcon
        rw [if_neg hoid]
  · rw [hstep]
    rw [List.filter_append]
    have hg : matchesCand doc d ts (genSlotRecord tpl doc d' ts' st) = false := by
      cases hpg : matchesCand doc d ts (genSlotRecord tpl doc d' ts' st)
      · rfl
      · exfalso
        have hk := (matchesCand_key hpg).symm.trans
          (genSlotRecord_key tpl doc d' ts' st)
        exact hne ⟨(congrArg (fun k : Nat × Nat × Nat => k.2.1) hk).symm,
          (congrArg (fun k : Nat × Nat × Nat => k.2.2) hk).symm⟩
    simp only [List.filter_cons, hg, Bool.false_eq_true, if_false,
      List.filter_nil, List.append_nil]

/-- A whole pass over candidates all of whose (date, start_time) keys avoid a
given one leaves that key's lookup slice untouched. -/
theorem processCands_other_filter (tpl : ScheduleTemplate) (doc d : Nat)
    (ts : TemplateTimeSlot) (cs : List (Nat × TemplateTimeSlot)) :
    ∀ st : List TimeSlot, UniqueIds st →
      (∀ c ∈ cs, ¬(c.1 = d ∧ c.2.start_time = ts.start_time)) →
      (processCands tpl doc cs st).2.filter (matchesCand doc d ts) =
        st.filter (matchesCand doc d ts) := by
  induction cs with
  | nil => exact fun st _ _ => rfl
  | cons c cs ih =>
    intro st hids hdiff
    have hred : (processCands tpl doc (c :: cs) st).2 =
        (processCands tpl doc cs (stepCandidate tpl doc c.1 c.2 st).2).2 := rfl
    rw [hred]
    rw [ih _ (step_uniqueIds tpl doc c.1 c.2 st hids)
      fun c' hc' => hdiff c' (List.mem_cons_of_mem _ hc')]
    exact step_other_filter tpl doc c.1 d c.2 ts st hids
      (hdiff c (List.mem_cons_self _ _))

/-! ## Failure monotonicity of the validated writes over a growing ledger -/

theorem overlap_elim {s : TimeSlot} {db : List TimeSlot}
    (h : overlapViolation s db = true) :
    ∃ o ∈ db, o.is_deleted = false ∧ o.doctor = s.doctor ∧ o.date = s.date ∧
      o.start_time < s.get_end_time ∧ o.is_available = true ∧ o.id ≠ s.id ∧
      s.start_time < o.get_end_time := by
  unfold overlapViolation at h
  rcases List.any_eq_true.mp h with ⟨o, hof, hp⟩
  have hom := List.mem_of_mem_filter hof
  have hoc := List.of_mem_filter hof
  simp only [Bool.and_eq_true, beq_iff_eq, bne_iff_ne, decide_eq_true_eq]
    at hoc hp
  exact ⟨o, hom, hoc.1.1.1.1.1, hoc.1.1.1.1.2, hoc.1.1.1.2, hoc.1.1.2,
    hoc.1.2, hoc.2, hp⟩

theorem overlap_intro {s o : TimeSlot} {db : List TimeSlot} (hom : o ∈ db)
    (h1 : o.is_deleted = false) (h2 : o.doctor = s.doctor)
    (h3 : o.date = s.date) (h4 : o.start_time < s.get_end_time)
    (h5 : o.is_available = true) (h6 : o.id ≠ s.id)
    (h7 : s.start_time < o.get_end_time) :
    overlapViolation s db = true := by
  unfold overlapViolation
  refine List.any_eq_true.mpr ⟨o, List.mem_filter.mpr ⟨hom, ?_⟩, ?_⟩
  · simp only [Bool.and_eq_true, beq_iff_eq, bne_iff_ne, decide_eq_true_eq]
    exact ⟨⟨⟨⟨⟨h1, h2⟩, h3⟩, h4⟩, h5⟩, h6⟩
  · simpa using h7

theorem overlap_mono {s : TimeSlot} {st st' : List TimeSlot}
    (h : overlapViolation s st = true) (hg : SlotsGrow st st') :
    overlapViolation s st' = true := by
  obtain ⟨o, hom, h1, h2, h3, h4, h5, h6, h7⟩ := overlap_elim h
  exact overlap_intro (hg.1 o hom h1) h1 h2 h3 h4 h5 h6 h7

theorem unique_false_elim {s : TimeSlot} {db : List TimeSlot}
    (h : validateUniqueOk s db = false) :
    ∃ o ∈ db, o.id ≠ s.id ∧ o.doctor = s.doctor ∧ o.date = s.date ∧
      o.start_time = s.start_time := by
  unfold validateUniqueOk at h
  have h2 : (db.any fun o =>
      o.id != s.id && o.doctor == s.doctor && o.date == s.date &&
        o.start_time == s.start_time) = true := by
    cases hb : db.any fun o =>
        o.id != s.id && o.doctor == s.doctor && o.date == s.date &&
          o.start_time == s.start_time
    · rw [hb] at h
      cases h
    · rfl
  rcases List.any_eq_true.mp h2 with ⟨o, hom, hp⟩
  simp only [Bool.and_eq_true, bne_iff_ne, beq_iff_eq] at hp
  exact ⟨o, hom, hp.1.1.1, hp.1.1.2, hp.1.2, hp.2⟩

theorem unique_false_intro {s o : TimeSlot} {db : List TimeSlot} (hom : o ∈ db)
    (h1 : o.id ≠ s.id) (h2 : o.doctor = s.doctor) (h3 : o.date = s.date)
    (h4 : o.start_time = s.start_time) : validateUniqueOk s db = false := by
  unfold validateUniqueOk
  have h2' : (db.any fun o =>
      o.id != s.id && o.doctor == s.doctor && o.date == s.date &&
        o.start_time == s.start_time) = true := by
    refine List.any_eq_true.mpr ⟨o, hom, ?_⟩
    simp only [Bool.and_eq_true, bne_iff_ne, beq_iff_eq]
    exact ⟨⟨⟨h1, h2⟩, h3⟩, h4⟩
  rw [h2']
  rfl

theorem unique_false_mono {s : TimeSlot} {st st' : List TimeSlot}
    (h : validateUniqueOk s st = false) (hg : SlotsGrow st st') :
    validateUniqueOk s st' = false := by
  obtain ⟨o, hom, h1, h2, h3, h4⟩ := unique_false_elim h
  obtain ⟨x, hx, hxid, hxkey⟩ := hg.2 o hom
  have hx1 : x.doctor = o.doctor :=
    congrArg (fun k : Nat × Nat × Nat => k.1) hxkey
  have hx2 : x.date = o.date :=
    congrArg (fun k : Nat × Nat × Nat => k.2.1) hxkey
  have hx3 : x.start_time = o.start_time :=
    congrArg (fun k : Nat × Nat × Nat => k.2.2) hxkey
  exact unique_false_intro hx (by rw [hxid]; exact h1) (hx1.trans h2)
    (hx2.trans h3) (hx3.trans h4)

/-- A failing restore keeps failing against any grown ledger. -/
theorem saveFail_mono {r : TimeSlot} {st st' : List TimeSlot} {e : String}
    (h : saveExistingTimeSlot r st = .error e) (hg : SlotsGrow st st') :
    ∃ e', saveExistingTimeSlot r st' = .error e' := by
  unfold saveExistingTimeSlot at h ⊢
  rcases hc'2 : timeSlotClean r st' with e1 | s''
  · exact ⟨e1, rfl⟩
  · obtain ⟨hsh2, hovf, hviols2⟩ := clean_ok_elim hc'2
    subst hsh2
    rcases hc : timeSlotClean r st with e0 | s1
    · exfalso
      rcases clean_error_elim hc with hov | ⟨t, ht, hviol⟩
      · have := overlap_mono hov hg
        rw [this] at hovf
        cases hovf
      · rcases hviols2 t ht with ⟨hh, hb⟩
        rcases hviol with hx | hx
        · rw [hx] at hh; cases hh
        · rw [hx] at hb; cases hb
    · rw [hc] at h
      have hsh := (clean_ok_elim hc).1
      by_cases hu : validateUniqueOk s1 st
      · simp only [hu, if_true] at h
        cases h
      · have huf : validateUniqueOk s1 st = false := by simpa using hu
        have huf' : validateUniqueOk (cleanAdjusted r) st' = false := by
          rw [← hsh]
          exact unique_false_mono huf hg
        refine ⟨"unique constraint violated", ?_⟩
        simp only [huf', Bool.false_eq_true, if_false]

/-- A failing create keeps failing against any grown ledger (the fresh id
changes with the ledger, but every failure cause persists). -/
theorem createFail_mono {doc date stt dur : Nat} {ty : SlotType}
    {tplo : Option ScheduleTemplate} {st st' : List TimeSlot} {e : String}
    (h : createTimeSlot doc date stt dur ty tplo st = .error e)
    (hg : SlotsGrow st st') :
    ∃ e', createTimeSlot doc date stt dur ty tplo st' = .error e' := by
  unfold createTimeSlot at h ⊢
  rcases hc'2 : timeSlotClean (newSlotRecord doc date stt dur ty tplo st') st'
    with e1 | s''
  · exact ⟨e1, rfl⟩
  · obtain ⟨hsh2, hovf, hviols2⟩ := clean_ok_elim hc'2
    subst hsh2
    rcases hc : timeSlotClean (newSlotRecord doc date stt dur ty tplo st) st
      with e0 | s1
    · exfalso
      rcases clean_error_elim hc with hov | ⟨t, ht, hviol⟩
      · obtain ⟨o, hom, h1, h2, h3, h4, h5, h6, h7⟩ := overlap_elim hov
        have hom' := hg.1 o hom h1
        have hov' : overlapViolation
            (cleanAdjusted (newSlotRecord doc date stt dur ty tplo st')) st'
              = true := by
          refine overlap_intro hom' h1 h2 h3 h4 h5 ?_ h7
          have hlt := mem_id_lt_fresh hom'
          have hfr : (cleanAdjusted
              (newSlotRecord doc date stt dur ty tplo st')).id =
                freshSlotId st' := rfl
          rw [hfr]
          omega
        rw [hov'] at hovf
        cases hovf
      · rcases hviols2 t ht with ⟨hh, hb⟩
        have hhe : hoursViolation
            (cleanAdjusted (newSlotRecord doc date stt dur ty tplo st)) t =
              hoursViolation
                (cleanAdjusted (newSlotRecord doc date stt dur ty tplo st')) t :=
          rfl
        have hbe : breakViolation
            (cleanAdjusted (newSlotRecord doc date stt dur ty tplo st)) t =
              breakViolation
                (cleanAdjusted (newSlotRecord doc date stt dur ty tplo st')) t :=
          rfl
        rcases hviol with hx | hx
        · rw [hhe] at hx; rw [hx] at hh; cases hh
        · rw [hbe] at hx; rw [hx] at hb; cases hb
    · rw [hc] at h
      have hsh := (clean_ok_elim hc).1
      by_cases hu : validateUniqueOk s1 st
      · simp only [hu, if_true] at h
        cases h
      · have huf : validateUniqueOk s1 st = false := by simpa using hu
        rw [hsh] at huf
        obtain ⟨o, hom, h1, h2, h3, h4⟩ := unique_false_elim huf
        obtain ⟨x, hx, hxid, hxkey⟩ := hg.2 o hom
        have hx1 : x.doctor = o.doctor :=
          congrArg (fun k : Nat × Nat × Nat => k.1) hxkey
        have hx2 : x.date = o.date :=
          congrArg (fun k : Nat × Nat × Nat => k.2.1) hxkey
        have hx3 : x.start_time = o.start_time :=
          congrArg (fun k : Nat × Nat × Nat => k.2.2) hxkey
        have huf' : validateUniqueOk
            (cleanAdjusted (newSlotRecord doc date stt dur ty tplo st')) st'
              = false := by
          refine unique_false_intro hx ?_ (hx1.trans h2) (hx2.trans h3)
            (hx3.trans h4)
          have hlt := mem_id_lt_fresh hx
          have hfr : (cleanAdjusted
              (newSlotRecord doc date stt dur ty tplo st')).id =
                freshSlotId st' := rfl
          rw [hfr]
          omega
        refine ⟨"unique constraint violated", ?_⟩
        simp only [huf', Bool.false_eq_true, if_false]

/-- Every row the run added (id absent from the initial ledger) carries the
generating template and passed its break validation. -/
def NewRowsFromTemplate (tpl : ScheduleTemplate) (st0 st' : List TimeSlot) :
    Prop :=
  ∀ x ∈ st', x.id ∉ st0.map TimeSlot.id →
    x.template = some tpl ∧ breakViolation x tpl = false

theorem step_newRows (tpl : ScheduleTemplate) (doc d : Nat)
    (ts : TemplateTimeSlot) (st0 st : List TimeSlot) (hids : UniqueIds st)
    (hinv : NewRowsFromTemplate tpl st0 st) :
    NewRowsFromTemplate tpl st0 (stepCandidate tpl doc d ts st).2 := by
  rcases stepCandidate_cases tpl doc d ts st with
    ⟨-, hstep⟩ | ⟨s, -, -, -, hstep⟩ | ⟨s, e, -, -, -, -, hstep⟩ |
    ⟨e, -, -, -, hstep⟩ | ⟨s, -, hfind, -, hsv, hstep⟩ | ⟨-, -, hcl, -, hstep⟩
  · rw [hstep]; exact hinv
  · rw [hstep]; exact hinv
  · rw [hstep]; exact hinv
  · rw [hstep]; exact hinv
  · rw [hstep]
    obtain ⟨hmem, -⟩ := mem_of_find_head hfind
    intro x hx hnot
    unfold replaceSlot at hx
    rcases List.mem_map.mp hx with ⟨o, ho, hfo⟩
    by_cases hoid : o.id = s.id
    · have hxr : x = cleanAdjusted (restoreRecord s) := by
        rw [← hfo, if_pos hoid]
      subst hxr
      have hsid : s.id ∉ List.map TimeSlot.id st0 := hnot
      obtain ⟨htpl, -⟩ := hinv s hmem hsid
      obtain ⟨-, hcl, -⟩ := saveExisting_ok_elim hsv
      obtain ⟨-, -, hviol⟩ := clean_ok_elim hcl
      have htpl' : (cleanAdjusted (restoreRecord s)).template = some tpl := htpl
      exact ⟨htpl', (hviol tpl htpl').2⟩
    · have hxo : x = o := by rw [← hfo, if_neg hoid]
      subst hxo
      exact hinv _ ho hnot
  · rw [hstep]
    intro x hx hnot
    rcases List.mem_append.mp hx with hx1 | hx2
    · exact hinv x hx1 hnot
    · rcases List.mem_singleton.mp hx2 with rfl
      obtain ⟨-, -, hviol⟩ := clean_ok_elim hcl
      have htpl : (genSlotRecord tpl doc d ts st).template = some tpl := rfl
      exact ⟨htpl, (hviol tpl htpl).2⟩

theorem processCands_newRows (tpl : ScheduleTemplate) (doc : Nat)
    (st0 : List TimeSlot) (cs : List (Nat × TemplateTimeSlot)) :
    ∀ st : List TimeSlot, UniqueIds st → NewRowsFromTemplate tpl st0 st →
      NewRowsFromTemplate tpl st0 (processCands tpl doc cs st).2 := by
  induction cs with
  | nil => exact fun st _ h => h
  | cons c cs ih =>
    intro st hids hinv
    have hred : (processCands tpl doc (c :: cs) st).2 =
        (processCands tpl doc cs (stepCandidate tpl doc c.1 c.2 st).2).2 := rfl
    rw [hred]
    exact ih _ (step_uniqueIds tpl doc c.1 c.2 st hids)
      (step_newRows tpl doc c.1 c.2 st0 st hids hinv)

theorem is_break_of_breakViolation_false {x : TimeSlot}
    {tpl : ScheduleTemplate} (h : breakViolation x tpl = false) :
    is_break_time tpl x.start_time = false := by
  unfold breakViolation at h
  unfold is_break_time
  rcases hbs : tpl.break_start with _ | bs
  · rfl
  · rcases hbe : tpl.break_end with _ | be
    · rfl
    · rw [hbs, hbe] at h
      simp only [decide_eq_false_iff_not] at h ⊢
      intro hcon
      exact h (Or.inl hcon)

/-- C2 (amended): the generator skips a candidate when its start instant lies
in [break_start, break_end) — not when its interval intersects the break — so
a generated slot can intersect its template's break window (see the
counterexample); what does hold is that every row a run adds carries the
generating template and passes the break checks of `TimeSlot.clean`: its
start does not lie in [break_start, break_end) and its end does not lie in
(break_start, break_end]. -/
theorem generated_slots_pass_break_validation (tpl : ScheduleTemplate)
    (tss : List TemplateTimeSlot) (sd : Nat) (ed : Option Nat)
    (st st1 : List TimeSlot) (n : Nat)
    (hids : UniqueIds st)
    (hrun : create_time_slots tpl tss sd ed st = .ok (n, st1)) :
    ∀ x ∈ st1, x.id ∉ st.map TimeSlot.id →
      x.template = some tpl ∧ breakViolation x tpl = false ∧
      is_break_time tpl x.start_time = false := by
  unfold create_time_slots at hrun
  rcases hdoc : tpl.doctor with _ | doc
  · rw [hdoc] at hrun
    cases hrun
  · rw [hdoc] at hrun
    have hrun2 : (if tss = []
        then (.ok (0, st) : Except String (Nat × List TimeSlot))
        else .ok (processDates tpl doc tss
          (dateRange sd (ed.getD (sd + 30))) st)) = .ok (n, st1) := hrun
    by_cases htss : tss = []
    · rw [if_pos htss] at hrun2
      simp only [Except.ok.injEq, Prod.mk.injEq] at hrun2
      obtain ⟨-, h2⟩ := hrun2
      subst h2
      intro x hx hnot
      exact absurd (List.mem_map_of_mem TimeSlot.id hx) hnot
    · rw [if_neg htss] at hrun2
      simp only [Except.ok.injEq] at hrun2
      have hst1 : (processDates tpl doc tss
          (dateRange sd (ed.getD (sd + 30))) st).2 = st1 := by
        rw [hrun2]
      rw [processDates_eq_cands] at hst1
      intro x hx hnot
      rw [← hst1] at hx
      have hinit : NewRowsFromTemplate tpl st st :=
        fun y hy hnoty => absurd (List.mem_map_of_mem TimeSlot.id hy) hnoty
      obtain ⟨h1, h2⟩ := processCands_newRows tpl doc st
        (candsOf tpl.day_of_week tss (dateRange sd (ed.getD (sd + 30)))) st
        hids hinit x hx hnot
      exact ⟨h1, h2, is_break_of_breakViolation_false h2⟩

theorem generated_slots_pass_break_validation_witness :
    UniqueIds ([] : List TimeSlot) ∧
    create_time_slots tplC2 [tsC2] 0 (some 0) [] = .ok (1, [slotC2]) ∧
    (slotC2.template = some tplC2 ∧ breakViolation slotC2 tplC2 = false ∧
      is_break_time tplC2 slotC2.start_time = false) := by
  have hids : UniqueIds ([] : List TimeSlot) := by
    unfold UniqueIds
    exact List.nodup_nil
  have hrun : create_time_slots tplC2 [tsC2] 0 (some 0) [] =
      .ok (1, [slotC2]) := rfl
  refine ⟨hids, hrun, ?_⟩
  exact generated_slots_pass_break_validation tplC2 [tsC2] 0 (some 0) []
    [slotC2] 1 hids hrun slotC2 (List.mem_singleton.mpr rfl) (by simp)

/-- After a full pass, every candidate of the pass is a no-op at the final
ledger: live matches are skipped, and failed restores/creates fail again. -/
theorem processCands_post_stable (tpl : ScheduleTemplate) (doc : Nat)
    (cs : List (Nat × TemplateTimeSlot)) :
    ∀ st : List TimeSlot, UniqueIds st → UniqueKeys st →
      cs.Pairwise (fun c1 c2 => candKey doc c1 ≠ candKey doc c2) →
      ∀ c ∈ cs, stepCandidate tpl doc c.1 c.2 (processCands tpl doc cs st).2 =
        (0, (processCands tpl doc cs st).2) := by
  induction cs with
  | nil =>
    intro st _ _ _ c hc
    cases hc
  | cons c0 cs ih =>
    intro st hids hkeys hpw c hc
    obtain ⟨hhead, htail⟩ := List.pairwise_cons.mp hpw
    have hidsA := step_uniqueIds tpl doc c0.1 c0.2 st hids
    have hkeysA := step_uniqueKeys tpl doc c0.1 c0.2 st hids hkeys
    obtain ⟨hids1, hkeys1, hgrow1⟩ := processCands_closure tpl doc cs
      (stepCandidate tpl doc c0.1 c0.2 st).2 hidsA hkeysA
    have hred : (processCands tpl doc (c0 :: cs) st).2 =
        (processCands tpl doc cs (stepCandidate tpl doc c0.1 c0.2 st).2).2 := rfl
    rw [hred]
    rcases List.mem_cons.mp hc with rfl | hc'
    · have hdiff : ∀ c' ∈ cs,
          ¬(c'.1 = c.1 ∧ c'.2.start_time = c.2.start_time) := by
        intro c' hc2 hcon
        exact hhead c' hc2 (by unfold candKey; rw [hcon.1, hcon.2])
      have hframe := processCands_other_filter tpl doc c.1 c.2 cs
        (stepCandidate tpl doc c.1 c.2 st).2 hidsA hdiff
      rcases stepCandidate_cases tpl doc c.1 c.2 st with
        ⟨hbr, hstep0⟩ | ⟨s, hbrf, hfind, hdelf, hstep0⟩ |
        ⟨s, e, hbrf, hfind, hdel, hsv, hstep0⟩ | ⟨e, hbrf, hfind, hcr, hstep0⟩ |
        ⟨s, hbrf, hfind, hdel, hsv, hstep0⟩ | ⟨hbrf, hfind, hcl, hun, hstep0⟩
      · unfold stepCandidate
        rw [if_pos hbr]
      · have hstA : (stepCandidate tpl doc c.1 c.2 st).2 = st := by
          rw [hstep0]
        rw [hstA] at hgrow1 hids1 hkeys1 ⊢
        obtain ⟨hmem, hmatch⟩ := mem_of_find_head hfind
        have hmem1 : s ∈ (processCands tpl doc cs st).2 :=
          hgrow1.1 s hmem hdelf
        have hsing := filter_singleton_of_unique hids1 hkeys1 hmem1 hmatch
          fun x hx hpx =>
            (matchesCand_key hpx).trans (matchesCand_key hmatch).symm
        unfold stepCandidate
        simp only [hbrf, Bool.false_eq_true, if_false, hsing,
          List.head?_cons, hdelf]
      · have hstA : (stepCandidate tpl doc c.1 c.2 st).2 = st := by
          rw [hstep0]
        rw [hstA] at hgrow1 hids1 hkeys1 hframe ⊢
        obtain ⟨e', hsv'⟩ := saveFail_mono hsv hgrow1
        unfold stepCandidate
        simp only [hbrf, Bool.false_eq_true, if_false, hframe, hfind, hdel,
          eq_self_iff_true, if_true, hsv']
      · have hstA : (stepCandidate tpl doc c.1 c.2 st).2 = st := by
          rw [hstep0]
        rw [hstA] at hgrow1 hids1 hkeys1 hframe ⊢
        obtain ⟨e', hcr'⟩ := createFail_mono hcr hgrow1
        unfold stepCandidate
        simp only [hbrf, Bool.false_eq_true, if_false, hframe, hfind, hcr']
      · obtain ⟨hmem, hmatch⟩ := mem_of_find_head hfind
        have hrmem : cleanAdjusted (restoreRecord s) ∈
            (stepCandidate tpl doc c.1 c.2 st).2 := by
          rw [hstep0]
          unfold replaceSlot
          exact List.mem_map.mpr ⟨s, hmem, by rw [if_pos rfl]⟩
        have hrdel : (cleanAdjusted (restoreRecord s)).is_deleted = false := rfl
        have hmem1 := hgrow1.1 _ hrmem hrdel
        have hmatchr : matchesCand doc c.1 c.2
            (cleanAdjusted (restoreRecord s)) = true := by
          rw [matchesCand_restore]
          exact hmatch
        have hsing := filter_singleton_of_unique hids1 hkeys1 hmem1 hmatchr
          fun x hx hpx =>
            (matchesCand_key hpx).trans (matchesCand_key hmatchr).symm
        have hstA : (stepCandidate tpl doc c.1 c.2 st).2 =
            replaceSlot s.id (cleanAdjusted (restoreRecord s)) st := by
          rw [hstep0]
        rw [hstA] at hsing ⊢
        unfold stepCandidate
        simp only [hbrf, Bool.false_eq_true, if_false, hsing,
          List.head?_cons, hrdel]
      · have hgmem : genSlotRecord tpl doc c.1 c.2 st ∈
            (stepCandidate tpl doc c.1 c.2 st).2 := by
          rw [hstep0]
          exact List.mem_append_right _ (List.mem_singleton.mpr rfl)
        have hgdel : (genSlotRecord tpl doc c.1 c.2 st).is_deleted = false :=
          rfl
        have hmem1 := hgrow1.1 _ hgmem hgdel
        have hmatchg : matchesCand doc c.1 c.2
            (genSlotRecord tpl doc c.1 c.2 st) = true := by
          simp [matchesCand, genSlotRecord, cleanAdjusted, newSlotRecord]
        have hsing := filter_singleton_of_unique hids1 hkeys1 hmem1 hmatchg
          fun x hx hpx =>
            (matchesCand_key hpx).trans (matchesCand_key hmatchg).symm
        have hstA : (stepCandidate tpl doc c.1 c.2 st).2 =
            st ++ [genSlotRecord tpl doc c.1 c.2 st] := by
          rw [hstep0]
        rw [hstA] at hsing ⊢
        unfold stepCandidate
        simp only [hbrf, Bool.false_eq_true, if_false, hsing,
          List.head?_cons, hgdel]
    · exact ih _ hidsA hkeysA htail c hc'

theorem processCands_all_stable (tpl : ScheduleTemplate) (doc : Nat)
    (cs : List (Nat × TemplateTimeSlot)) (st1 : List TimeSlot)
    (h : ∀ c ∈ cs, stepCandidate tpl doc c.1 c.2 st1 = (0, st1)) :
    processCands tpl doc cs st1 = (0, st1) := by
  induction cs with
  | nil => rfl
  | cons c cs ih =>
    have hc := h c (List.mem_cons_self _ _)
    have hrest := ih fun c' hc' => h c' (List.mem_cons_of_mem _ hc')
    have h2 : processCands tpl doc cs ((0 : Nat), st1).2 = (0, st1) := hrest
    show ((stepCandidate tpl doc c.1 c.2 st1).1 +
        (processCands tpl doc cs (stepCandidate tpl doc c.1 c.2 st1).2).1,
      (processCands tpl doc cs (stepCandidate tpl doc c.1 c.2 st1).2).2) =
        (0, st1)
    rw [hc, h2]
    rfl

/-- C3: regeneration is idempotent. Over a ledger with unique primary keys
and unique (doctor, date, start_time) keys, and a template whose slot
definitions have pairwise distinct start times, a second run of
`create_time_slots` over the same (template, date range) with no intervening
writes reports zero created slots and returns the ledger unchanged. -/
theorem create_time_slots_idempotent (tpl : ScheduleTemplate)
    (tss : List TemplateTimeSlot) (sd : Nat) (ed : Option Nat)
    (st st1 : List TimeSlot) (n : Nat)
    (hids : UniqueIds st) (hkeys : UniqueKeys st)
    (hstarts : tss.Pairwise fun t1 t2 => t1.start_time ≠ t2.start_time)
    (hrun : create_time_slots tpl tss sd ed st = .ok (n, st1)) :
    create_time_slots tpl tss sd ed st1 = .ok (0, st1) := by
  unfold create_time_slots at hrun ⊢
  rcases hdoc : tpl.doctor with _ | doc
  · rw [hdoc] at hrun
    cases hrun
  · rw [hdoc] at hrun
    have hrun2 : (if tss = []
        then (.ok (0, st) : Except String (Nat × List TimeSlot))
        else .ok (processDates tpl doc tss
          (dateRange sd (ed.getD (sd + 30))) st)) = .ok (n, st1) := hrun
    show (if tss = []
        then (.ok (0, st1) : Except String (Nat × List TimeSlot))
        else .ok (processDates tpl doc tss
          (dateRange sd (ed.getD (sd + 30))) st1)) = .ok (0, st1)
    by_cases htss : tss = []
    · rw [if_pos htss]
    · rw [if_neg htss] at hrun2
      rw [if_neg htss]
      simp only [Except.ok.injEq] at hrun2
      have hst1 : (processDates tpl doc tss
          (dateRange sd (ed.getD (sd + 30))) st).2 = st1 := by
        rw [hrun2]
      rw [processDates_eq_cands] at hst1
      rw [processDates_eq_cands]
      have hndr : (dateRange sd (ed.getD (sd + 30))).Nodup := by
        unfold dateRange
        exact List.nodup_range' _ _
      have hpw := candsOf_pairwise doc tpl.day_of_week tss
        (dateRange sd (ed.getD (sd + 30))) hndr hstarts
      have hstable := processCands_post_stable tpl doc
        (candsOf tpl.day_of_week tss (dateRange sd (ed.getD (sd + 30)))) st
        hids hkeys hpw
      rw [hst1] at hstable
      rw [processCands_all_stable tpl doc _ st1 hstable]

def tplW3 : ScheduleTemplate :=
  { id := 3, doctor := some 1, day_of_week := 1, start_time := 480,
    end_time := 1020 }

def tsW3 : TemplateTimeSlot :=
  { start_time := 540, duration := 15, slot_type := .consultation }

def slotW3 : TimeSlot :=
  { id := 1, doctor := 1, template := some tplW3, date := 0, start_time := 540,
    duration := 15, slot_type := .consultation }

theorem create_time_slots_idempotent_witness :
    create_time_slots tplW3 [tsW3] 0 (some 0) [] = .ok (1, [slotW3]) ∧
    create_time_slots tplW3 [tsW3] 0 (some 0) [slotW3] = .ok (0, [slotW3]) := by
  have hrun : create_time_slots tplW3 [tsW3] 0 (some 0) [] =
      .ok (1, [slotW3]) := rfl
  refine ⟨hrun, ?_⟩
  exact create_time_slots_idempotent tplW3 [tsW3] 0 (some 0) [] [slotW3] 1
    (by unfold UniqueIds; exact List.nodup_nil)
    (by unfold UniqueKeys; exact List.nodup_nil)
    (List.pairwise_singleton _ _) hrun

/-! ## Soft-delete / regenerate round trip (C8) -/

def tplC8 : ScheduleTemplate :=
  { id := 8, doctor := some 1, day_of_week := 1, start_time := 480,
    end_time := 1020 }

def tsC8 : TemplateTimeSlot :=
  { start_time := 720, duration := 40, slot_type := .treatment }

def slotAC8 : TimeSlot :=
  { id := 1, doctor := 1, date := 0, start_time := 720, duration := 40,
    slot_type := .treatment, is_available := false, is_deleted := true }

def slotBC8 : TimeSlot :=
  { id := 2, doctor := 1, date := 0, start_time := 740, duration := 15,
    slot_type := .consultation }

/-- C8 counterexample: slot A (12:00–12:40, treatment) is soft-deleted, after
which slot B (12:20–12:35) is validly created — the overlap check ignores
deleted rows.  Regenerating over a range containing A's date finds the
soft-deleted row and attempts the restore, but `full_clean` now fails on the
overlap with B; the exception is caught and the candidate skipped, so the run
reports zero restored slots and A stays soft-deleted: the round trip fails
even though the range contains A's date and its candidate is due. -/
theorem soft_delete_regenerate_not_round_trip_counterexample :
    createTimeSlot 1 0 740 15 .consultation none [slotAC8] =
      .ok ([slotAC8, slotBC8], slotBC8) ∧
    0 ∈ dateRange 0 0 ∧ isoweekday 0 = tplC8.day_of_week ∧
    matchesCand 1 0 tsC8 slotAC8 = true ∧ slotAC8.is_deleted = true ∧
    is_break_time tplC8 tsC8.start_time = false ∧
    create_time_slots tplC8 [tsC8] 0 (some 0) [slotAC8, slotBC8] =
      .ok (0, [slotAC8, slotBC8]) := by
  exact ⟨by rfl, by decide, by decide, by rfl, rfl, rfl, by rfl⟩

theorem candsOf_mem_intro {dow d : Nat} {tss : List TemplateTimeSlot}
    {ts : TemplateTimeSlot} {ds : List Nat} (hd : d ∈ ds)
    (hw : isoweekday d = dow) (hts : ts ∈ tss) :
    (d, ts) ∈ candsOf dow tss ds := by
  induction ds with
  | nil => cases hd
  | cons d0 ds ih =>
    unfold candsOf
    rcases List.mem_cons.mp hd with rfl | hd'
    · refine List.mem_append.mpr (Or.inl ?_)
      rw [if_pos hw]
      exact List.mem_map.mpr ⟨ts, hts, rfl⟩
    · exact List.mem_append.mpr (Or.inr (ih hd'))

/-- If a pass covers a candidate matching a soft-deleted row and restoring
that row validates against the final ledger, then the pass restored it. -/
theorem processCands_restores (tpl : ScheduleTemplate) (doc : Nat)
    (cs : List (Nat × TemplateTimeSlot)) :
    ∀ st : List TimeSlot, UniqueIds st → UniqueKeys st →
      cs.Pairwise (fun c1 c2 => candKey doc c1 ≠ candKey doc c2) →
      ∀ c ∈ cs, ∀ s ∈ st, s.is_deleted = true →
        matchesCand doc c.1 c.2 s = true →
        is_break_time tpl c.2.start_time = false →
        (∃ sl, saveExistingTimeSlot (restoreRecord s)
          (processCands tpl doc cs st).2 = .ok sl) →
        cleanAdjusted (restoreRecord s) ∈ (processCands tpl doc cs st).2 := by
  induction cs with
  | nil =>
    intro st _ _ _ c hc
    cases hc
  | cons c0 cs ih =>
    intro st hids hkeys hpw c hc s hmem hdel hmatch hbr hdok
    obtain ⟨hhead, htail⟩ := List.pairwise_cons.mp hpw
    have hidsA := step_uniqueIds tpl doc c0.1 c0.2 st hids
    have hkeysA := step_uniqueKeys tpl doc c0.1 c0.2 st hids hkeys
    have hred : (processCands tpl doc (c0 :: cs) st).2 =
        (processCands tpl doc cs (stepCandidate tpl doc c0.1 c0.2 st).2).2 := rfl
    rw [hred] at hdok ⊢
    have hsing := filter_singleton_of_unique hids hkeys hmem hmatch
      fun x hx hpx => (matchesCand_key hpx).trans (matchesCand_key hmatch).symm
    rcases List.mem_cons.mp hc with rfl | hc'
    · rcases stepCandidate_cases tpl doc c.1 c.2 st with
        ⟨hbr2, hstep0⟩ | ⟨s', hbrf, hfind, hdelf, hstep0⟩ |
        ⟨s', e, hbrf, hfind, hdel', hsv, hstep0⟩ |
        ⟨e, hbrf, hfind, hcr, hstep0⟩ |
        ⟨s', hbrf, hfind, hdel', hsv, hstep0⟩ | ⟨hbrf, hfind, hcl, hun, hstep0⟩
      · rw [hbr2] at hbr
        cases hbr
      · rw [hsing] at hfind
        simp only [List.head?_cons, Option.some.injEq] at hfind
        subst hfind
        rw [hdelf] at hdel
        cases hdel
      · rw [hsing] at hfind
        simp only [List.head?_cons, Option.some.injEq] at hfind
        subst hfind
        have hstA : (stepCandidate tpl doc c.1 c.2 st).2 = st := by
          rw [hstep0]
        rw [hstA] at hdok
        obtain ⟨-, -, hgrow1⟩ := processCands_closure tpl doc cs st hids hkeys
        obtain ⟨e', hsv'⟩ := saveFail_mono hsv hgrow1
        obtain ⟨sl, hok⟩ := hdok
        rw [hok] at hsv'
        cases hsv'
      · rw [hsing] at hfind
        cases hfind
      · rw [hsing] at hfind
        simp only [List.head?_cons, Option.some.injEq] at hfind
        subst hfind
        have hstA : (stepCandidate tpl doc c.1 c.2 st).2 =
            replaceSlot s.id (cleanAdjusted (restoreRecord s)) st := by
          rw [hstep0]
        rw [hstA] at hidsA hkeysA ⊢
        obtain ⟨-, -, hgrow1⟩ := processCands_closure tpl doc cs
          (replaceSlot s.id (cleanAdjusted (restoreRecord s)) st) hidsA hkeysA
        refine hgrow1.1 _ ?_ rfl
        unfold replaceSlot
        exact List.mem_map.mpr ⟨s, hmem, by rw [if_pos rfl]⟩
      · rw [hsing] at hfind
        cases hfind
    · have hne : ¬(c0.1 = c.1 ∧ c0.2.start_time = c.2.start_time) := by
        intro hcon
        exact hhead c hc' (by unfold candKey; rw [hcon.1, hcon.2])
      have hframe := step_other_filter tpl doc c0.1 c.1 c0.2 c.2 st hids hne
      have hsingA : (stepCandidate tpl doc c0.1 c0.2 st).2.filter
          (matchesCand doc c.1 c.2) = [s] := by
        rw [hframe, hsing]
      have hmemA : s ∈ (stepCandidate tpl doc c0.1 c0.2 st).2 :=
        List.mem_of_mem_filter (p := matchesCand doc c.1 c.2)
          (by rw [hsingA]; exact List.mem_singleton.mpr rfl)
      exact ih _ hidsA hkeysA htail c hc' s hmemA hdel hmatch hbr hdok

/-- C8 (amended): regeneration restores a soft-deleted slot in place — same
row (same id), same (doctor, date, start_time) key and slot type, with
`is_deleted = false` and `is_available = true`, and no second row for that
key — provided its candidate is actually due (its date is in the range on the
template's weekday, a definition matches it, and its start is not inside the
template's break) and the restored row still passes validation against the
run's final ledger; the counterexample shows the unconditional round trip of
the original claim fails when the restore no longer validates. -/
theorem soft_deleted_slot_restored_by_regeneration
    (tpl : ScheduleTemplate) (tss : List TemplateTimeSlot) (sd : Nat)
    (ed : Option Nat) (st st1 : List TimeSlot) (n doc d : Nat)
    (ts : TemplateTimeSlot) (s : TimeSlot)
    (hdoc : tpl.doctor = some doc)
    (hids : UniqueIds st) (hkeys : UniqueKeys st)
    (hrun : create_time_slots tpl tss sd ed st = .ok (n, st1))
    (hmem : s ∈ st) (hdel : s.is_deleted = true)
    (hmatch : matchesCand doc d ts s = true)
    (hts : ts ∈ tss) (hd : d ∈ dateRange sd (ed.getD (sd + 30)))
    (hweek : isoweekday d = tpl.day_of_week)
    (hbr : is_break_time tpl ts.start_time = false)
    (hstarts : tss.Pairwise fun t1 t2 => t1.start_time ≠ t2.start_time)
    (hdok : ∃ sl, saveExistingTimeSlot (restoreRecord s) st1 = .ok sl) :
    cleanAdjusted (restoreRecord s) ∈ st1 ∧
    (cleanAdjusted (restoreRecord s)).id = s.id ∧
    slotKey (cleanAdjusted (restoreRecord s)) = slotKey s ∧
    (cleanAdjusted (restoreRecord s)).slot_type = s.slot_type ∧
    (cleanAdjusted (restoreRecord s)).is_deleted = false ∧
    (cleanAdjusted (restoreRecord s)).is_available = true ∧
    ∀ x ∈ st1, slotKey x = slotKey s → x = cleanAdjusted (restoreRecord s) := by
  have htss : tss ≠ [] := by
    intro h
    rw [h] at hts
    cases hts
  unfold create_time_slots at hrun
  rw [hdoc] at hrun
  have hrun2 : (if tss = []
      then (.ok (0, st) : Except String (Nat × List TimeSlot))
      else .ok (processDates tpl doc tss
        (dateRange sd (ed.getD (sd + 30))) st)) = .ok (n, st1) := hrun
  rw [if_neg htss] at hrun2
  simp only [Except.ok.injEq] at hrun2
  have hst1 : (processDates tpl doc tss
      (dateRange sd (ed.getD (sd + 30))) st).2 = st1 := by
    rw [hrun2]
  rw [processDates_eq_cands] at hst1
  have hndr : (dateRange sd (ed.getD (sd + 30))).Nodup := by
    unfold dateRange
    exact List.nodup_range' _ _
  have hpw := candsOf_pairwise doc tpl.day_of_week tss
    (dateRange sd (ed.getD (sd + 30))) hndr hstarts
  have hcand : (d, ts) ∈ candsOf tpl.day_of_week tss
      (dateRange sd (ed.getD (sd + 30))) :=
    candsOf_mem_intro hd hweek hts
  rw [← hst1] at hdok
  have hrmem := processCands_restores tpl doc
    (candsOf tpl.day_of_week tss (dateRange sd (ed.getD (sd + 30)))) st
    hids hkeys hpw (d, ts) hcand s hmem hdel hmatch hbr hdok
  rw [hst1] at hrmem
  obtain ⟨-, hkeys1, -⟩ := processCands_closure tpl doc
    (candsOf tpl.day_of_week tss (dateRange sd (ed.getD (sd + 30)))) st
    hids hkeys
  rw [hst1] at hkeys1
  refine ⟨hrmem, rfl, rfl, rfl, rfl, rfl, ?_⟩
  intro x hx hkx
  exact eq_of_mem_same_key hkeys1 hx hrmem (hkx.trans (restore_key s).symm)

def tplW8 : ScheduleTemplate :=
  { id := 80, doctor := some 1, day_of_week := 1, start_time := 480,
    end_time := 1020 }

def tsW8 : TemplateTimeSlot :=
  { start_time := 600, duration := 15, slot_type := .consultation }

def slotW8 : TimeSlot :=
  { id := 1, doctor := 1, date := 0, start_time := 600, duration := 15,
    slot_type := .consultation, is_available := false, is_deleted := true }

def restoredW8 : TimeSlot :=
  { id := 1, doctor := 1, date := 0, start_time := 600, duration := 15,
    slot_type := .consultation, is_available := true, is_deleted := false }

theorem soft_deleted_slot_restored_by_regeneration_witness :
    create_time_slots tplW8 [tsW8] 0 (some 0) [slotW8] =
      .ok (1, [restoredW8]) ∧
    cleanAdjusted (restoreRecord slotW8) ∈ [restoredW8] ∧
    (cleanAdjusted (restoreRecord slotW8)).id = slotW8.id ∧
    (cleanAdjusted (restoreRecord slotW8)).is_deleted = false ∧
    (cleanAdjusted (restoreRecord slotW8)).is_available = true := by
  have hrun : create_time_slots tplW8 [tsW8] 0 (some 0) [slotW8] =
      .ok (1, [restoredW8]) := rfl
  have h := soft_deleted_slot_restored_by_regeneration tplW8 [tsW8] 0 (some 0)
    [slotW8] [restoredW8] 1 1 0 tsW8 slotW8 rfl
    (by unfold UniqueIds; decide) (by unfold UniqueKeys; decide) hrun
    (List.mem_singleton.mpr rfl) rfl rfl (List.mem_singleton.mpr rfl)
    (by decide) rfl rfl (List.pairwise_singleton _ _) ⟨[restoredW8], rfl⟩
  exact ⟨hrun, h.1, h.2.1, h.2.2.2.2.1, h.2.2.2.2.2.1⟩

end MED
